import Mathlib

/-!
# Element Resolution Engine — verification of spec claims

Shallow embedding of the element-resolution logic of the
`n8n-nodes-rpa-playwright-cdp` repository.  The embedded functions mirror,
case by case, the TypeScript source:

* `src/unnamed/part_004` — the `FindElementByDescription` orchestrator with
  heuristic search, AI retry loop and semantic fallback
  (`parseAiJson`, `runSemanticValidation`, `constructRobustSelector`,
  the heuristic / AI / fallback phases of `execute`);
* `src/nodes/Interactions/FindElementByDescription.node.ts` — the variant
  whose result reports an `attempts` counter and validates tag/type;
* `src/nodes/Interactions/FindElementByDescriptionNew/utils.ts` —
  `safeJsonParse` and `sortSuggestions`.

External collaborators (the live DOM, the AI provider, the JS builtin
`JSON.parse`) are modelled as explicit oracle parameters: the DOM is a
function from selector strings to an optional match count (`none` models a
selector the CSS engine rejects, i.e. a thrown error), provider calls are
indexed by call order, and `JSON.parse` is a parameter
`parse : String → Option α` (`none` models a parse exception).
-/

namespace Rpa

/-- The backtick character (U+0060), written via its code point. -/
def bt : Char := Char.ofNat 96

/-- JS whitespace as used by `trim` and `\s`, restricted to the ASCII
whitespace characters. -/
def jsWs (c : Char) : Bool :=
  c = ' ' || c = '\t' || c = '\n' || c = '\r' || c = '\x0b' || c = '\x0c'

/-- JS `String.prototype.includes`: `strIncludes hay needle` is true iff
`needle` occurs contiguously inside `hay`. -/
def strIncludes (hay needle : String) : Bool :=
  decide (needle.data <:+: hay.data)

/-- JS `String.prototype.toLowerCase` (ASCII range). -/
def jsToLower (s : String) : String := String.mk (s.data.map Char.toLower)

/-- Splitting a character list at every character satisfying `p`, keeping
empty segments — the behaviour of JS `split` with a single-character
separator (and, for separator classes, of `split(/[…]/)`). -/
def charSplitAux (p : Char → Bool) (cur : List Char) : List Char → List (List Char)
  | [] => [cur.reverse]
  | c :: r => if p c then cur.reverse :: charSplitAux p [] r else charSplitAux p (c :: cur) r

/-- JS `s.split(sep)` for a one-character separator class `p`. -/
def charSplit (p : Char → Bool) (s : String) : List String :=
  (charSplitAux p [] s.data).map String.mk

/-!
## Candidate records

`page.evaluate` in `part_004` (lines 746-765) produces one record per DOM
element; geometry (`rect`, `isVisible`) is dropped here because no embedded
code path reads it.
-/

structure Candidate where
  index : Nat
  tagName : String
  text : String
  id : String
  name : String
  className : String
  placeholder : String
  typeAttr : String
  ariaLabel : String
  href : String
  title : String
  alt : String
deriving Repr, DecidableEq

/-- The attribute list the heuristic search lowercases and scans
(`part_004` line 816): `[id, name, placeholder, text, ariaLabel, href,
title, alt]`. -/
def attsOf (c : Candidate) : List String :=
  [c.id, c.name, c.placeholder, c.text, c.ariaLabel, c.href, c.title, c.alt].map jsToLower

/-- `descLower.split(/\s+/).filter(w => w.length > 2)` (`part_004` line 814).
Splitting on each whitespace character and filtering by length > 2 yields the
same list as splitting on runs of whitespace and filtering, since the
difference is only empty tokens. -/
def keywordsOf (description : String) : List String :=
  (charSplit jsWs (jsToLower description)).filter (fun w => w.length > 2)

/-- `atts.some(v => v === descLower)` (`part_004` line 817). -/
def isExactMatch (description : String) (c : Candidate) : Bool :=
  (attsOf c).any (fun v => v = jsToLower description)

/-- `keywords.length > 0 && keywords.every(kw => atts.some(a => a.includes(kw)))`
(`part_004` line 818). -/
def isFuzzyMatch (description : String) (c : Candidate) : Bool :=
  !(keywordsOf description).isEmpty &&
    (keywordsOf description).all (fun kw => (attsOf c).any (fun a => strIncludes a kw))

/-- The fuzzy-match class exactly as the claim words it: every kept token is
a substring of at least one lowercased attribute value (with no requirement
that a token exists at all). Stated for comparison with `isFuzzyMatch`. -/
def fuzzyClaimed (description : String) (c : Candidate) : Bool :=
  (keywordsOf description).all (fun kw => (attsOf c).any (fun a => strIncludes a kw))

/-!
## Selector construction (`constructRobustSelector`, `part_004` lines 794-809)
-/

/-- `t.href.split(/[?#]/)[0]`: the portion of the href before the first `?`
or `#`. -/
def hrefPath (href : String) : String :=
  String.mk (href.data.takeWhile (fun c => c ≠ '?' && c ≠ '#'))

/-- `const last = pathParts.pop() || pathParts.pop()`: the last element of
the split, or — when that is empty — the element before it (`undefined`
from popping an exhausted array is modelled as `""`, which JS treats as
falsy in exactly the same way). -/
def lastPathPart (parts : List String) : String :=
  match parts.reverse with
  | [] => ""
  | [a] => a
  | a :: b :: _ => if a ≠ "" then a else b

def constructRobustSelector (t : Candidate) : String :=
  if t.id ≠ "" then "#" ++ t.id
  else if t.name ≠ "" then "[name=\"" ++ t.name ++ "\"]"
  else if t.href ≠ "" && t.href.length > 5 then
    let last := lastPathPart (charSplit (fun c => c = '/') (hrefPath t.href))
    if last ≠ "" && last.length > 3 then t.tagName ++ "[href*=\"" ++ last ++ "\"]"
    else t.tagName ++ "[href=\"" ++ t.href ++ "\"]"
  else if t.ariaLabel ≠ "" then "[aria-label=\"" ++ t.ariaLabel ++ "\"]"
  else if t.placeholder ≠ "" then "[placeholder=\"" ++ t.placeholder ++ "\"]"
  else if t.title ≠ "" then "[title=\"" ++ t.title ++ "\"]"
  else if t.alt ≠ "" then "[alt=\"" ++ t.alt ++ "\"]"
  else if t.text ≠ "" && t.text.length > 2 && t.text.length < 50 then
    t.tagName ++ ":has-text(\"" ++ t.text ++ "\")"
  else t.tagName ++ ":nth-of-type(" ++ toString (t.index + 1) ++ ")"

/-- The selector priority exactly as the claim words it: the href rule is
applicable only when the last non-empty path component has at least 4
characters (otherwise the aria-label rule is next), and the contains-text
rule applies to text of length 2 to 49. -/
def constructSelectorClaimed (t : Candidate) : String :=
  if t.id ≠ "" then "#" ++ t.id
  else if t.name ≠ "" then "[name=\"" ++ t.name ++ "\"]"
  else if (let last := ((charSplit (fun c => c = '/') (hrefPath t.href)).filter (· ≠ "")).getLastD ""
          last.length ≥ 4) then
    t.tagName ++ "[href*=\"" ++ ((charSplit (fun c => c = '/') (hrefPath t.href)).filter (· ≠ "")).getLastD "" ++ "\"]"
  else if t.ariaLabel ≠ "" then "[aria-label=\"" ++ t.ariaLabel ++ "\"]"
  else if t.placeholder ≠ "" then "[placeholder=\"" ++ t.placeholder ++ "\"]"
  else if t.title ≠ "" then "[title=\"" ++ t.title ++ "\"]"
  else if t.alt ≠ "" then "[alt=\"" ++ t.alt ++ "\"]"
  else if t.text.length ≥ 2 && t.text.length ≤ 49 then
    t.tagName ++ ":has-text(\"" ++ t.text ++ "\")"
  else t.tagName ++ ":nth-of-type(" ++ toString (t.index + 1) ++ ")"

/-- A selector-construction rule: a guard over the candidate and a builder. -/
structure SelectorRule where
  applies : Candidate → Bool
  build : Candidate → String

/-- First-applicable-rule evaluation of an ordered rule list, with a final
default builder. -/
def firstApplicable (rules : List SelectorRule) (dflt : Candidate → String)
    (t : Candidate) : String :=
  match rules with
  | [] => dflt t
  | r :: rs => if r.applies t then r.build t else firstApplicable rs dflt t

/-- The amended priority order, as data: id; name; href (whenever the href
is at least 6 characters — using the last path component, retried once past
one trailing empty component, when that component is non-empty and at least
4 characters long, else matching the full href); aria-label; placeholder;
title; alt; contains-text for text of length 3 to 49; positional fallback. -/
def selectorRules : List SelectorRule :=
  [ ⟨fun t => t.id ≠ "", fun t => "#" ++ t.id⟩,
    ⟨fun t => t.name ≠ "", fun t => "[name=\"" ++ t.name ++ "\"]"⟩,
    ⟨fun t => t.href ≠ "" && t.href.length > 5,
     fun t =>
       let last := lastPathPart (charSplit (fun c => c = '/') (hrefPath t.href))
       if last ≠ "" && last.length > 3 then t.tagName ++ "[href*=\"" ++ last ++ "\"]"
       else t.tagName ++ "[href=\"" ++ t.href ++ "\"]"⟩,
    ⟨fun t => t.ariaLabel ≠ "", fun t => "[aria-label=\"" ++ t.ariaLabel ++ "\"]"⟩,
    ⟨fun t => t.placeholder ≠ "", fun t => "[placeholder=\"" ++ t.placeholder ++ "\"]"⟩,
    ⟨fun t => t.title ≠ "", fun t => "[title=\"" ++ t.title ++ "\"]"⟩,
    ⟨fun t => t.alt ≠ "", fun t => "[alt=\"" ++ t.alt ++ "\"]"⟩,
    ⟨fun t => t.text ≠ "" && t.text.length > 2 && t.text.length < 50,
     fun t => t.tagName ++ ":has-text(\"" ++ t.text ++ "\")"⟩ ]

/-- The amended selector construction: `selectorRules` evaluated first
applicable first, with the nth-of-type positional default. -/
def constructSelectorAmended (t : Candidate) : String :=
  firstApplicable selectorRules
    (fun t => t.tagName ++ ":nth-of-type(" ++ toString (t.index + 1) ++ ")") t

/-- A candidate with no attributes at all. -/
def emptyCand : Candidate :=
  ⟨0, "", "", "", "", "", "", "", "", "", "", ""⟩

/-- An anchor whose href is 6 characters long with a short (2-character)
last path component, and which carries an aria-label. -/
def hrefCand : Candidate :=
  { emptyCand with tagName := "a", href := "/ab/cd", ariaLabel := "menu" }

/-- A paragraph whose only attribute is a 2-character text. -/
def shortTextCand : Candidate :=
  { emptyCand with tagName := "p", text := "ok" }

/-!
## The `part_004` orchestrator (`FindElementByDescription.execute`)

The `execute` item loop of `src/unnamed/part_004` (lines 713-880) is
embedded as a pure function over explicit oracles.  Confidence values are
rationals (JS numbers used only for comparison and pass-through here).
A JSON field that the provider response omits (`undefined`) is modelled by
the corresponding default value (`""`, `0`, `[]`), which the code treats
identically wherever it branches (all branches test falsiness).
-/

/-- A parsed AI suggestion, as consumed at `part_004` line 852:
`selector`, `confidence`, `reasoning`, `alternatives` (the code applies
`|| []` only to `alternatives`). -/
structure Parsed where
  selector : String
  confidence : ℚ
  reasoning : String
  alternatives : List String
deriving Repr, DecidableEq

/-- A parsed semantic-fallback response (`part_004` lines 868-869):
an optional `index` (`none` models a response without an `index` key) and a
`reasoning` string. -/
structure FallbackParsed where
  index : Option Int
  reasoning : String
deriving Repr, DecidableEq

/-- The node parameters read at `part_004` lines 716-722 that the
resolution logic branches on. -/
structure Config where
  description : String
  heuristicSearch : Bool
  useAI : Bool
  semanticValidation : Bool
  maxAttempts : Nat
deriving Repr, DecidableEq

/-- The external collaborators of one `execute` item:

* `domCount sel` — the result of `document.querySelectorAll(sel).length`
  (`part_004` line 821); `none` models a selector the CSS engine rejects
  (the query throws).  `page.$(sel)` is truthy exactly when the count is
  positive and throws exactly when `domCount` is `none`.
* `sem k` — the outcome of the `k`-th semantic-validation provider call:
  `none` models a thrown/unparseable provider response, `some b` the parsed
  `matches` boolean.
* `synth k` — the outcome of the `k`-th AI-synthesis call: `.error m`
  models a thrown request or unparseable response with diagnostic `m`,
  `.ok p` a parsed suggestion.
* `fb` — the outcome of the single semantic-fallback call. -/
structure Oracles where
  domCount : String → Option Nat
  sem : Nat → Option Bool
  synth : Nat → Except String Parsed
  fb : Except String FallbackParsed

/-- The mutable locals of the `execute` item loop (`part_004` line 737)
plus the two oracle call counters that replace the implicit call order. -/
structure St where
  selector : String
  confidence : ℚ
  reasoning : String
  alternatives : List String
  validated : Bool
  semIdx : Nat
  synthIdx : Nat
deriving Repr

/-- `let selector = '', confidence = 0, reasoning = '', alternatives = [],
validated = false` (`part_004` line 737). -/
def St.init : St := ⟨"", 0, "", [], false, 0, 0⟩

/-- `runSemanticValidation` (`part_004` lines 773-792): skipped entirely
(returning `true`) when semantic validation is disabled; `false` when
`page.$(sel)` finds nothing (or the query throws, absorbed by
`.catch(() => null)`); otherwise one provider call whose failure is a
pass-through `true` and whose success returns the parsed `matches`. -/
def runSemanticValidation (cfg : Config) (o : Oracles) (st : St) (sel : String) :
    Bool × St :=
  if !cfg.semanticValidation then (true, st)
  else
    match o.domCount sel with
    | none => (false, st)
    | some 0 => (false, st)
    | some (_ + 1) =>
      let st' := { st with semIdx := st.semIdx + 1 }
      match o.sem st.semIdx with
      | none => (true, st')
      | some b => (b, st')

/-- The reasoning string written on a heuristic hit (`part_004` line 823). -/
def heurMsg (exact : Bool) (sel : String) : String :=
  "Heuristic match (" ++ (if exact then "exact" else "fuzzy") ++
    "): Unique element found via " ++ sel ++ "."

/-- The heuristic search loop (`part_004` lines 812-828).  A thrown
`page.evaluate` (rejected selector) aborts the whole `try` block; the
second component carries that diagnostic (the browser-generated message is
modelled by a fixed string — no claim depends on its text). -/
def heurLoop (cfg : Config) (o : Oracles) : List Candidate → St → St × Option String
  | [], st => (st, none)
  | c :: rest, st =>
    if isExactMatch cfg.description c || isFuzzyMatch cfg.description c then
      match o.domCount (constructRobustSelector c) with
      | none => (st, some "selector evaluation failed")
      | some n =>
        if n = 1 then
          if (runSemanticValidation cfg o st (constructRobustSelector c)).1 then
            ({ (runSemanticValidation cfg o st (constructRobustSelector c)).2 with
                selector := constructRobustSelector c
                validated := true
                confidence := if isExactMatch cfg.description c then 98/100 else 85/100
                reasoning := heurMsg (isExactMatch cfg.description c)
                  (constructRobustSelector c) }, none)
          else heurLoop cfg o rest (runSemanticValidation cfg o st (constructRobustSelector c)).2
        else heurLoop cfg o rest st
    else heurLoop cfg o rest st

/-- The validation sweep over `[selector, ...alternatives]` inside an AI
attempt (`part_004` lines 853-856): empty entries are skipped, the first
entry passing `runSemanticValidation` is accepted. -/
def tryValidate (cfg : Config) (o : Oracles) : List String → St → St
  | [], st => st
  | sel :: rest, st =>
    if sel = "" then tryValidate cfg o rest st
    else
      if (runSemanticValidation cfg o st sel).1 then
        { (runSemanticValidation cfg o st sel).2 with selector := sel, validated := true }
      else tryValidate cfg o rest (runSemanticValidation cfg o st sel).2

/-- The per-chunk AI retry loop (`part_004` lines 838-858), with the
remaining attempt count as fuel (the chunk list at line 836 is the
singleton `[bodyHTML]`, so this is the whole AI phase).  A failed call or
parse only records the diagnostic; a parsed suggestion overwrites
`selector`, `confidence`, `reasoning` and `alternatives` before the
validation sweep runs. -/
def aiLoop (cfg : Config) (o : Oracles) : Nat → St → St
  | 0, st => st
  | n + 1, st =>
    if st.validated then st
    else
      match o.synth st.synthIdx with
      | .error m =>
          aiLoop cfg o n
            { st with reasoning := "AI Error: " ++ m, synthIdx := st.synthIdx + 1 }
      | .ok p =>
          let st1 := { st with
                       selector := p.selector
                       confidence := p.confidence
                       reasoning := p.reasoning
                       alternatives := p.alternatives
                       synthIdx := st.synthIdx + 1 }
          aiLoop cfg o n (tryValidate cfg o (p.selector :: p.alternatives) st1)

/-- JS `candidates[i]` for a numeric index: `none` for a negative or
out-of-range index (where the subsequent property access throws, swallowed
by the fallback's empty `catch`). -/
def listGetInt (l : List Candidate) (i : Int) : Option Candidate :=
  if i < 0 then none else l.get? i.toNat

/-- The semantic fallback (`part_004` lines 863-875).  Every failure path —
provider error, missing or out-of-range index, rejected or non-matching
selector — is swallowed by the empty `catch {}` and leaves the state
unchanged; only an existing element flips `validated`. -/
def fallbackStep (o : Oracles) (candidates : List Candidate) (st : St) : St :=
  if st.validated || candidates.isEmpty then st
  else
    match o.fb with
    | .error _ => st
    | .ok p =>
      match p.index with
      | none => st
      | some i =>
        match listGetInt candidates i with
        | none => st
        | some t =>
          match o.domCount (constructRobustSelector t) with
          | none => st
          | some 0 => st
          | some (_ + 1) =>
            { st with
              selector := constructRobustSelector t
              validated := true
              reasoning := "Semantic match: " ++ p.reasoning }

/-- The validated-implies-nonempty-selector invariant of the `part_004`
loop state. -/
def SelInv (st : St) : Prop := st.validated = true → st.selector ≠ ""

/-- The `findElementResult` shape pushed at `part_004` line 879 (the
`aiStats` performance counters are not modelled). -/
structure FindResult where
  selector : String
  confidence : ℚ
  reasoning : String
  validated : Bool
deriving Repr, DecidableEq

def finalize (st : St) : FindResult :=
  ⟨st.selector, st.confidence, st.reasoning, st.validated⟩

/-- One `execute` item of `part_004` (lines 740-879): heuristic phase, then
— while unvalidated and `useAI` — the AI retry loop and the semantic
fallback; a throw escaping the heuristic loop is caught at line 877, which
stamps the diagnostic into `reasoning` and still pushes a result. -/
def runItem (cfg : Config) (o : Oracles) (candidates : List Candidate) : FindResult :=
  match (if cfg.heuristicSearch then heurLoop cfg o candidates St.init
         else (St.init, none)) with
  | (st1, some m) => finalize { st1 with reasoning := "Execution Error: " ++ m }
  | (st1, none) =>
    if !st1.validated && cfg.useAI then
      finalize (fallbackStep o candidates (aiLoop cfg o cfg.maxAttempts st1))
    else finalize st1

/-!
## The `FindElementByDescription.node.ts` variant

`src/nodes/Interactions/FindElementByDescription.node.ts` (lines 230-388):
chunked AI loop with tag/type validation and an `attempts` counter in the
returned result.  `page.$(sel)` returning an element handle is modelled by
`query sel = some info` carrying the element's tag name and `type`
attribute; `none` covers both "no element" and a rejected selector (the
`catch` at line 361 only re-assigns `validated = false`, which is already
false whenever the loop is still running).
-/

/-- Tag name and `type` attribute of the first element matching a selector
(`node.ts` lines 332-333). -/
structure ElementInfo where
  tagName : String
  typeAttr : String
deriving Repr, DecidableEq

/-- The `typeMatches` switch (`node.ts` lines 338-353); an element type not
listed (the switch has no default) leaves `typeMatches` false. -/
def typeMatches (elementType : String) (info : ElementInfo) : Bool :=
  let et := jsToLower elementType
  if et = "input" then info.tagName = "input"
  else if et = "button" then info.tagName = "button"
  else if et = "select" then info.tagName = "select"
  else if et = "checkbox" then info.tagName = "input" && info.typeAttr = "checkbox"
  else if et = "radio" then info.tagName = "input" && info.typeAttr = "radio"
  else if et = "textarea" then info.tagName = "textarea"
  else if et = "div" then info.tagName = "div"
  else if et = "a" then info.tagName = "a"
  else if et = "img" then info.tagName = "img"
  else if et = "span" then info.tagName = "span"
  else if et = "p" then info.tagName = "p"
  else if et = "h1,h2,h3,h4,h5,h6" then
    decide (info.tagName ∈ ["h1", "h2", "h3", "h4", "h5", "h6"])
  else if et = "table" then info.tagName = "table"
  else if et = "*" then true
  else false

/-- External collaborators of one `node.ts` item. -/
structure NodeOracles where
  query : String → Option ElementInfo
  synth : Nat → Except String Parsed

/-- The mutable locals of the `node.ts` item loop (lines 166-171) plus the
synthesis call counter. -/
structure NodeSt where
  attempts : Nat
  selector : String
  confidence : ℚ
  reasoning : String
  alternatives : List String
  validated : Bool
  synthIdx : Nat
deriving Repr

def NodeSt.init : NodeSt := ⟨0, "", 0, "", [], false, 0⟩

/-- The validated-implies-nonempty-selector invariant of the `node.ts`
loop state. -/
def NSelInv (st : NodeSt) : Prop := st.validated = true → st.selector ≠ ""

/-- The `node.ts` acceptance invariant: a validated state's selector has a
first DOM match with a compatible tag/type. -/
def NTyped (et : String) (o : NodeOracles) (st : NodeSt) : Prop :=
  st.validated = true →
    ∃ info, o.query st.selector = some info ∧ typeMatches et info = true 

/-- The validation sweep over `[selector, ...alternatives]`
(`node.ts` lines 326-364): accept the first non-empty selector whose first
match has a compatible tag/type; existence of a single match is *not*
required. -/
def nodeValidate (et : String) (o : NodeOracles) : List String → NodeSt → NodeSt
  | [], st => st
  | sel :: rest, st =>
    if sel = "" then nodeValidate et o rest st
    else
      match o.query sel with
      | none => nodeValidate et o rest st
      | some info =>
        if typeMatches et info then { st with selector := sel, validated := true }
        else nodeValidate et o rest st

/-- One chunk's retry loop (`node.ts` lines 242-369), fuel = `maxAttempts`
with `attempts` starting at 0 for the chunk.  The code applies `|| ''`,
`|| 0`, `|| []` defaults when copying a parsed suggestion (lines 305-308),
which is the identity on the modelled fields. -/
def nodeAttempts (et : String) (o : NodeOracles) : Nat → NodeSt → NodeSt
  | 0, st => st
  | n + 1, st =>
    if st.validated then st
    else
      match o.synth st.synthIdx with
      | .error m =>
          nodeAttempts et o n
            { st with
              attempts := st.attempts + 1
              reasoning := "AI did not return valid JSON or failed: " ++ m
              synthIdx := st.synthIdx + 1 }
      | .ok p =>
          nodeAttempts et o n (nodeValidate et o (p.selector :: p.alternatives)
            { st with
              attempts := st.attempts + 1
              selector := p.selector
              confidence := p.confidence
              reasoning := p.reasoning
              alternatives := p.alternatives
              synthIdx := st.synthIdx + 1 })

/-- The chunk loop (`node.ts` lines 240-371): `attempts` resets to 0 per
chunk; the loop breaks at the first validated chunk. -/
def nodeChunks (et : String) (o : NodeOracles) (maxA : Nat) :
    List String → NodeSt → NodeSt
  | [], st => st
  | _ :: rest, st =>
    if (nodeAttempts et o maxA { st with attempts := 0 }).validated then
      nodeAttempts et o maxA { st with attempts := 0 }
    else nodeChunks et o maxA rest (nodeAttempts et o maxA { st with attempts := 0 })

/-- Fixed-size slicing of the body HTML (`node.ts` lines 234-238),
fuelled by the string length (each step consumes at least one character). -/
def chunkGo (size : Nat) : Nat → List Char → List (List Char)
  | 0, _ => []
  | _, [] => []
  | fuel + 1, l => l.take size :: chunkGo size fuel (l.drop size)

def htmlChunks (html : String) : List String :=
  (chunkGo 35000 html.data.length html.data).map String.mk

/-- The `findElementResult` shape pushed at `node.ts` lines 379-386. -/
structure NodeResult where
  selector : String
  confidence : ℚ
  reasoning : String
  attempts : Nat
  alternatives : List String
  validated : Bool
deriving Repr, DecidableEq

/-- One `execute` item of `node.ts` (lines 230-388), from the filtered body
HTML onwards. -/
def runItemNode (elementType : String) (maxAttempts : Nat) (o : NodeOracles)
    (bodyHTML : String) : NodeResult :=
  let st := nodeChunks elementType o maxAttempts (htmlChunks bodyHTML) NodeSt.init
  ⟨st.selector, st.confidence, st.reasoning, st.attempts, st.alternatives, st.validated⟩

/-!
## Concrete instances used by the counterexamples and witnesses
-/

/-- Heuristic search and semantic validation off, AI on, one attempt. -/
def cfgNoHeur : Config := ⟨"x", false, true, false, 1⟩

/-- Heuristic search off, AI on, semantic validation on, three attempts. -/
def cfgSemOn : Config := ⟨"x", false, true, true, 3⟩

/-- Heuristic-only configuration for the description `"save"`. -/
def cfgSave : Config := ⟨"save", true, false, false, 3⟩

/-- Heuristic-only configuration for the description `"save settings"`. -/
def cfgSaveSettings : Config := ⟨"save settings", true, false, false, 3⟩

/-- A button candidate whose id is `save`. -/
def cSave : Candidate := { emptyCand with id := "save", tagName := "button" }

/-- A button candidate fuzzy-matching `"save settings"` via its aria-label. -/
def cFuzzy : Candidate := { emptyCand with tagName := "button", ariaLabel := "Save Settings Now" }

/-- A candidate whose id is exactly `save settings`. -/
def cExactId : Candidate := { emptyCand with id := "save settings" }

/-- A DOM where no selector matches anything, a provider whose synthesis
call parses to the selector `#ghost`, and a failing fallback. -/
def oGhost : Oracles :=
  ⟨fun _ => some 0, fun _ => none, fun _ => Except.ok ⟨"#ghost", 9/10, "found", []⟩,
    Except.error "offline"⟩

/-- A provider whose synthesis call parses to confidence 5 (out of range). -/
def oConf5 : Oracles :=
  ⟨fun _ => some 0, fun _ => none, fun _ => Except.ok ⟨"#x", 5, "sure", []⟩,
    Except.error "offline"⟩

/-- A DOM with no matches and a provider suggesting `#x`. -/
def oSuggestX : Oracles :=
  ⟨fun _ => some 0, fun _ => none, fun _ => Except.ok ⟨"#x", 9/10, "found", []⟩,
    Except.error "offline"⟩

/-- A DOM with no matches and a failing provider. -/
def oZero : Oracles :=
  ⟨fun _ => some 0, fun _ => none, fun _ => Except.error "boom", Except.error "boom"⟩

/-- A DOM in which exactly `#save` is unique. -/
def oSaveOk : Oracles :=
  ⟨fun s => if s = "#save" then some 1 else some 0, fun _ => none,
    fun _ => Except.error "unused", Except.error "unused"⟩

/-- A DOM in which exactly the aria-label selector of `cFuzzy` is unique. -/
def oAria : Oracles :=
  ⟨fun s => if s = "[aria-label=\"Save Settings Now\"]" then some 1 else some 0,
    fun _ => none, fun _ => Except.error "unused", Except.error "unused"⟩

/-- A page holding one button `#btn` and a provider that suggests it. -/
def noBtn : NodeOracles :=
  ⟨fun s => if s = "#btn" then some ⟨"button", ""⟩ else none,
    fun _ => Except.ok ⟨"#btn", 9/10, "unique id", []⟩⟩

/-- A `node.ts` provider that always fails. -/
def noErr : NodeOracles :=
  ⟨fun _ => none, fun _ => Except.error "boom"⟩

/-- A DOM where every selector matches two elements, and a provider whose
semantic-validation call always throws. -/
def oSemUp : Oracles :=
  ⟨fun _ => some 2, fun _ => none, fun _ => Except.error "offline", Except.error "offline"⟩

/-!
## Ranking (`sortSuggestions`, `FindElementByDescriptionNew/utils.ts` lines 9-15)

The comparator orders validated suggestions first, then by descending
confidence.  `Array.prototype.sort` with a consistent comparator returns an
array sorted by it; the builtin sort is modelled by insertion sort over the
comparator's induced order.
-/

/-- The two fields the comparator reads (`validated?: boolean` defaulting
to absent is modelled as `false`, which JS treats identically in the
comparator's truthiness tests). -/
structure Suggestion where
  validated : Bool
  confidence : ℚ
deriving Repr, DecidableEq

/-- The comparator body (`utils.ts` lines 10-14). -/
def sortCmp (a b : Suggestion) : ℚ :=
  if a.validated && !b.validated then -1
  else if !a.validated && b.validated then 1
  else b.confidence - a.confidence

/-- `a` sorts no later than `b`. -/
def sortLe (a b : Suggestion) : Prop := sortCmp a b ≤ 0

instance : DecidableRel sortLe :=
  fun a b => (inferInstance : Decidable (sortCmp a b ≤ 0))

instance : IsTotal Suggestion sortLe where
  total a b := by
    unfold sortLe sortCmp
    rcases Bool.eq_false_or_eq_true a.validated with ha | ha <;>
      rcases Bool.eq_false_or_eq_true b.validated with hb | hb <;>
      rw [ha, hb] <;> try simp
    all_goals exact le_total b.confidence a.confidence

instance : IsTrans Suggestion sortLe where
  trans a b c hab hbc := by
    unfold sortLe sortCmp at hab hbc ⊢
    rcases Bool.eq_false_or_eq_true a.validated with ha | ha <;>
      rcases Bool.eq_false_or_eq_true b.validated with hb | hb <;>
      rcases Bool.eq_false_or_eq_true c.validated with hc | hc <;>
      rw [ha, hb] at hab <;> rw [hb, hc] at hbc <;> rw [ha, hc] <;>
      try norm_num at hab hbc ⊢
    all_goals linarith

/-- `sortSuggestions` (`utils.ts` lines 9-15). -/
def sortSuggestions (l : List Suggestion) : List Suggestion :=
  List.insertionSort sortLe l

/-- An unvalidated suggestion with high confidence. -/
def sugLow : Suggestion := ⟨false, 9/10⟩

/-- A validated suggestion with low confidence. -/
def sugHigh : Suggestion := ⟨true, 1/10⟩

/-!
## `safeJsonParse` (`FindElementByDescriptionNew/utils.ts` lines 1-7)

`JSON.parse` inside `try`/`catch`; the builtin is the parameter `parse`,
with `none` standing for a thrown parse error.
-/

def safeJsonParse {α : Type} (parse : String → Option α) (raw : String)
    (fallback : α) : α :=
  match parse raw with
  | some v => v
  | none => fallback

/-- A tiny concrete stand-in for `JSON.parse` used by the witness. -/
def jparse0 : String → Option Nat := fun s => if s = "42" then some 42 else none

/-!
## AI-response parsing (`parseAiJson`)

`node.ts` lines 108-111 strip Markdown fences and `JSON.parse` the rest;
`part_004` lines 659-677 add a brace-slice stage with comment stripping and
a regex fallback.  The fence-stripping regex `/```(json)?\n?/g` is modelled
by `glob` scanning left to right: at each position a run of three backticks
(optionally followed by `json`, optionally followed by a newline) is
removed, otherwise one character is kept.
-/

/-- The opening brace character, written via its code point. -/
def obr : Char := Char.ofNat 123

/-- The closing brace character, written via its code point. -/
def cbr : Char := Char.ofNat 125

/-- How many characters the optional `(json)?\n?` tail of a fence match
consumes. -/
def jsonSkip (l : List Char) : Nat :=
  if l.take 5 = ['j', 's', 'o', 'n', '\n'] then 5
  else if l.take 4 = ['j', 's', 'o', 'n'] then 4
  else if l.take 1 = ['\n'] then 1
  else 0

/-- The remainder after the optional `(json)?\n?` tail. -/
def afterTicks (l : List Char) : List Char := l.drop (jsonSkip l)

/-- One global pass of `replace(/```(json)?\n?/g, '')`. -/
def glob : List Char → List Char
  | [] => []
  | c :: l =>
    if c = bt ∧ l.take 2 = [bt, bt] then glob (afterTicks (l.drop 2))
    else c :: glob l
termination_by l => l.length
decreasing_by
  all_goals simp [afterTicks, List.length_drop]
  all_goals omega

/-- `replace(/```$/, '')`: drop a trailing triple backtick. -/
def stripEndTicks (l : List Char) : List Char :=
  if [bt, bt, bt] <:+ l then l.take (l.length - 3) else l

/-- JS `trim`. -/
def jsTrim (l : List Char) : List Char :=
  (l.dropWhile jsWs).rdropWhile jsWs

/-- The cleaning pipeline shared by both `parseAiJson` variants:
`text.replace(/```(json)?\n?/g, '').replace(/```$/, '').trim()`. -/
def cleanFences (s : String) : String :=
  String.mk (jsTrim (stripEndTicks (glob s.data)))

/-- `parseAiJson` (`node.ts` lines 108-111): strip fences, then
`JSON.parse` (the `parse` parameter; `none` models a parse exception). -/
def parseAiJson {α : Type} (parse : String → Option α) (text : String) : Option α :=
  parse (cleanFences text)

mutual

/-- `replace(/\/\/.*$/gm, '')`: drop the rest of the line from each `//`. -/
def stripLineComments : List Char → List Char
  | '/' :: '/' :: r => skipLine r
  | c :: r => c :: stripLineComments r
  | [] => []

/-- Skip to (but keep) the next newline after a line comment. -/
def skipLine : List Char → List Char
  | '\n' :: r => '\n' :: stripLineComments r
  | _ :: r => skipLine r
  | [] => []

end

/-- Whether a closing `*/` occurs in the remainder. -/
def hasCloseB (l : List Char) : Bool := decide (['*', '/'] <:+: l)

/-- The remainder after the first `*/`. -/
def afterClose : List Char → List Char
  | '*' :: '/' :: r => r
  | _ :: r => afterClose r
  | [] => []

/-- `replace(/\/\*[\s\S]*?\*\//g, '')`, fuelled by the input length (each
step consumes at least one character).  An unclosed `/*` is not a match and
is kept verbatim, like the regex. -/
def stripBlockF : Nat → List Char → List Char
  | 0, l => l
  | fuel + 1, l =>
    match l with
    | '/' :: '*' :: r =>
      if hasCloseB r then stripBlockF fuel (afterClose r) else l
    | c :: r => c :: stripBlockF fuel r
    | [] => []

def stripBlockComments (l : List Char) : List Char := stripBlockF l.length l

/-- The index of the first character satisfying `p`. -/
def firstIdx (p : Char → Bool) : List Char → Option Nat
  | [] => none
  | c :: r => if p c then some 0 else (firstIdx p r).map (· + 1)

/-- The index of the last character satisfying `p`. -/
def lastIdx (p : Char → Bool) (l : List Char) : Option Nat :=
  (firstIdx p l.reverse).map (fun k => l.length - 1 - k)

/-- `cleaned.slice(start, end + 1)` between `indexOf('\x7b')` and
`lastIndexOf('\x7d')`; `none` models the `throw` when either index is -1
(JS `slice` yields `""` when the indices cross, exactly as the `Nat`
subtraction does here). -/
def braceSliceJs (l : List Char) : Option (List Char) :=
  match firstIdx (fun c => c = obr) l, lastIdx (fun c => c = cbr) l with
  | some s, some e => some ((l.drop s).take (e + 1 - s))
  | _, _ => none

/-- `text.match(/\x7b[\s\S]*\x7d/)`: greedy first-brace-to-last-brace
match; `none` when no closing brace follows an opening one. -/
def braceRegex (l : List Char) : Option (List Char) :=
  match firstIdx (fun c => c = obr) l, lastIdx (fun c => c = cbr) l with
  | some s, some e => if s < e then some ((l.drop s).take (e + 1 - s)) else none
  | _, _ => none

/-- The `catch` stage of the `part_004` `parseAiJson` (lines 669-675):
regex-match a brace block in the *raw* text, strip line comments, parse;
rethrow (`none`) when the match is missing or the parse fails. -/
def parseAiJson4Fb {α : Type} (parse : String → Option α) (text : String) : Option α :=
  match braceRegex text.data with
  | some seg => parse (String.mk (stripLineComments seg))
  | none => none

/-- The multi-stage `parseAiJson` of `part_004` (lines 659-677): clean the
fences, slice between the first opening and last closing brace, strip line
then block comments and parse; on any failure, fall back to a brace-block
regex match on the raw text with line comments stripped. -/
def parseAiJson4 {α : Type} (parse : String → Option α) (text : String) : Option α :=
  match braceSliceJs (cleanFences text).data with
  | some seg =>
    match parse (String.mk (stripBlockComments (stripLineComments seg))) with
    | some v => some v
    | none => parseAiJson4Fb parse text
  | none => parseAiJson4Fb parse text

/-- Wrapping a payload in Markdown code fences. -/
def fenceWrap (j : String) : String := "```json\n" ++ j ++ "\n```"

/-- What remains of a string that `JSON.parse` accepts as an object, after
trailing whitespace: it ends with the closing brace.  This is the
consequence of "parses as a JSON object" that the fence-equivalence proof
uses. -/
def jsonishEnd (j : String) : Prop :=
  (j.data.rdropWhile jsWs).getLast? = some cbr

/-- A stand-in for `JSON.parse` recognising only the empty object. -/
def jparse1 : String → Option Nat :=
  fun s => if s = String.mk [obr, cbr] then some 1 else none

end Rpa

namespace Rpa

/-!
## Supporting lemmas
-/

/-- `runSemanticValidation` never changes anything but the call counter. -/
theorem runSemValid_snd (cfg : Config) (o : Oracles) (st : St) (sel : String) :
    (runSemanticValidation cfg o st sel).2 = st ∨
      (runSemanticValidation cfg o st sel).2 = { st with semIdx := st.semIdx + 1 } := by
  unfold runSemanticValidation
  split
  · exact Or.inl rfl
  · rcases h : o.domCount sel with _ | n
    · exact Or.inl rfl
    · match n with
      | 0 => exact Or.inl rfl
      | m + 1 =>
        rcases h2 : o.sem st.semIdx with _ | b <;> simp [h, h2]

theorem runSemValid_selector (cfg : Config) (o : Oracles) (st : St) (sel : String) :
    (runSemanticValidation cfg o st sel).2.selector = st.selector := by
  rcases runSemValid_snd cfg o st sel with h | h <;> rw [h]

theorem runSemValid_validated (cfg : Config) (o : Oracles) (st : St) (sel : String) :
    (runSemanticValidation cfg o st sel).2.validated = st.validated := by
  rcases runSemValid_snd cfg o st sel with h | h <;> rw [h]

theorem runSemValid_confidence (cfg : Config) (o : Oracles) (st : St) (sel : String) :
    (runSemanticValidation cfg o st sel).2.confidence = st.confidence := by
  rcases runSemValid_snd cfg o st sel with h | h <;> rw [h]

/-- A string with positive length is non-empty. -/
theorem str_ne_of_len_pos (s : String) (h : 0 < s.length) : s ≠ "" := by
  intro hs
  rw [hs] at h
  simp at h

/-- Every branch of `constructRobustSelector` emits a non-empty string. -/
theorem constructRobustSelector_ne_empty (t : Candidate) :
    constructRobustSelector t ≠ "" := by
  apply str_ne_of_len_pos
  unfold constructRobustSelector
  repeat' split
  all_goals simp [String.length_append]
  all_goals try split
  all_goals try simp [String.length_append]
  all_goals first
    | decide
    | exact Or.inl (by decide)
    | exact Or.inr (by decide)

theorem heurLoop_selInv (cfg : Config) (o : Oracles) (cands : List Candidate) (st : St)
    (h : SelInv st) : SelInv (heurLoop cfg o cands st).1 := by
  induction cands generalizing st with
  | nil => exact h
  | cons c rest ih =>
    unfold heurLoop
    split
    · split
      · exact h
      · split
        · split
          · intro _
            simp
            exact constructRobustSelector_ne_empty c
          · refine ih _ ?_
            intro hv
            rw [runSemValid_validated] at hv
            rw [runSemValid_selector]
            exact h hv
        · exact ih st h
    · exact ih st h

theorem tryValidate_selInv (cfg : Config) (o : Oracles) (sels : List String) (st : St)
    (h : SelInv st) : SelInv (tryValidate cfg o sels st) := by
  induction sels generalizing st with
  | nil => exact h
  | cons sel rest ih =>
    unfold tryValidate
    split
    · exact ih st h
    · split
      · intro _
        simp
        assumption
      · refine ih _ ?_
        intro hv
        rw [runSemValid_validated] at hv
        rw [runSemValid_selector]
        exact h hv

theorem aiLoop_selInv (cfg : Config) (o : Oracles) (n : Nat) (st : St)
    (h : SelInv st) : SelInv (aiLoop cfg o n st) := by
  induction n generalizing st with
  | zero => exact h
  | succ n ih =>
    unfold aiLoop
    split
    case isTrue => exact h
    case isFalse hnv =>
      split
      · exact ih _ (by intro hv; exact h hv)
      · refine ih _ (tryValidate_selInv cfg o _ _ ?_)
        intro hv
        exact absurd hv hnv

theorem fallbackStep_selInv (o : Oracles) (cands : List Candidate) (st : St)
    (h : SelInv st) : SelInv (fallbackStep o cands st) := by
  unfold fallbackStep
  repeat' split
  all_goals try exact h
  intro _
  simp
  apply constructRobustSelector_ne_empty

/-- A heuristic-phase acceptance re-queried to exactly one element: if the
heuristic loop starts unvalidated and ends validated, the selector it
stored had DOM match count 1. -/
theorem heurLoop_count (cfg : Config) (o : Oracles) (cands : List Candidate) (st : St)
    (h : st.validated = false)
    (hv : (heurLoop cfg o cands st).1.validated = true) :
    o.domCount ((heurLoop cfg o cands st).1.selector) = some 1 := by
  induction cands generalizing st with
  | nil =>
    rw [heurLoop] at hv
    rw [h] at hv
    exact absurd hv (by simp)
  | cons c rest ih =>
    revert hv
    unfold heurLoop
    split
    · split
      · intro hv
        rw [h] at hv
        exact absurd hv (by simp)
      · rename_i n heq
        split
        · rename_i hn
          split
          · intro _
            simpa [hn] using heq
          · intro hv
            refine ih _ ?_ hv
            rw [runSemValid_validated]
            exact h
        · exact fun hv => ih st h hv
    · exact fun hv => ih st h hv

/-- `aiLoop` is the identity on an already-validated state. -/
theorem aiLoop_stable (cfg : Config) (o : Oracles) (n : Nat) (st : St)
    (h : st.validated = true) : aiLoop cfg o n st = st := by
  cases n <;> simp [aiLoop, h]

/-- `fallbackStep` is the identity on an already-validated state. -/
theorem fallbackStep_stable (o : Oracles) (cands : List Candidate) (st : St)
    (h : st.validated = true) : fallbackStep o cands st = st := by
  simp [fallbackStep, h]

/-- `tryValidate` does not change the stored confidence. -/
theorem tryValidate_conf (cfg : Config) (o : Oracles) (sels : List String) (st : St) :
    (tryValidate cfg o sels st).confidence = st.confidence := by
  induction sels generalizing st with
  | nil => rfl
  | cons sel rest ih =>
    unfold tryValidate
    split
    · exact ih st
    · split
      · simpa using runSemValid_confidence cfg o st sel
      · rw [ih]
        exact runSemValid_confidence cfg o st sel

/-- The confidence leaving the heuristic loop is the incoming one or one of
the two heuristic constants. -/
theorem heurLoop_conf (cfg : Config) (o : Oracles) (cands : List Candidate) (st : St) :
    (heurLoop cfg o cands st).1.confidence = st.confidence ∨
      (heurLoop cfg o cands st).1.confidence = 85/100 ∨
      (heurLoop cfg o cands st).1.confidence = 98/100 := by
  induction cands generalizing st with
  | nil => exact Or.inl rfl
  | cons c rest ih =>
    unfold heurLoop
    split
    · split
      · exact Or.inl rfl
      · split
        · split
          · split
            · right; right; rfl
            · right; left; rfl
          · rcases ih ((runSemanticValidation cfg o st (constructRobustSelector c)).2) with
              hc | hc | hc
            · rw [hc, runSemValid_confidence]
              exact Or.inl rfl
            · exact Or.inr (Or.inl hc)
            · exact Or.inr (Or.inr hc)
        · exact ih st
    · exact ih st

/-- The confidence leaving the AI loop is the incoming one or the
confidence of some parsed synthesis response. -/
theorem aiLoop_conf (cfg : Config) (o : Oracles) (n : Nat) (st : St) :
    (aiLoop cfg o n st).confidence = st.confidence ∨
      ∃ k p, o.synth k = Except.ok p ∧ (aiLoop cfg o n st).confidence = p.confidence := by
  induction n generalizing st with
  | zero => exact Or.inl rfl
  | succ n ih =>
    unfold aiLoop
    split
    · exact Or.inl rfl
    · split
      · rename_i m heq
        rcases ih _ with hc | ⟨k, p, hk, hc⟩
        · exact Or.inl hc
        · exact Or.inr ⟨k, p, hk, hc⟩
      · rename_i p heq
        rcases ih _ with hc | ⟨k, q, hk, hc⟩
        · rw [tryValidate_conf] at hc
          exact Or.inr ⟨st.synthIdx, p, heq, hc⟩
        · exact Or.inr ⟨k, q, hk, hc⟩

/-- `fallbackStep` does not change the stored confidence. -/
theorem fallbackStep_conf (o : Oracles) (cands : List Candidate) (st : St) :
    (fallbackStep o cands st).confidence = st.confidence := by
  unfold fallbackStep
  repeat' split
  all_goals rfl

/-- When every synthesis call fails, the AI loop only accumulates the last
diagnostic and the call counter. -/
theorem aiLoop_allError (cfg : Config) (o : Oracles) (msgs : Nat → String)
    (hall : ∀ k, o.synth k = Except.error (msgs k)) :
    ∀ n, 1 ≤ n → ∀ st, st.validated = false →
      aiLoop cfg o n st =
        { st with reasoning := "AI Error: " ++ msgs (st.synthIdx + n - 1),
                  synthIdx := st.synthIdx + n } := by
  intro n
  induction n with
  | zero => intro h; exact absurd h (by omega)
  | succ n ih =>
    intro _ st hst
    unfold aiLoop
    rw [hst]
    simp only [Bool.false_eq_true, if_false, hall st.synthIdx]
    rcases Nat.eq_zero_or_pos n with h0 | hpos
    · subst h0
      simp [aiLoop]
    · rw [ih hpos _ rfl]
      have e1 : st.synthIdx + 1 + n - 1 = st.synthIdx + (n + 1) - 1 := by omega
      have e2 : st.synthIdx + 1 + n = st.synthIdx + (n + 1) := by omega
      simp [e1, e2]

/-- A failed fallback call leaves the state unchanged. -/
theorem fallbackStep_error (o : Oracles) (cands : List Candidate) (st : St)
    (e : String) (h : o.fb = Except.error e) : fallbackStep o cands st = st := by
  unfold fallbackStep
  rw [h]
  split <;> rfl

/-- With `heuristicSearch` off, `useAI` on and every synthesis call
failing, an item returns normally with an empty selector, zero confidence,
`validated = false`, and the last diagnostic in `reasoning`. -/
theorem runItem_allError (cfg : Config) (o : Oracles) (cands : List Candidate)
    (msgs : Nat → String)
    (h1 : cfg.heuristicSearch = false) (h2 : cfg.useAI = true)
    (h3 : 1 ≤ cfg.maxAttempts)
    (hall : ∀ k, o.synth k = Except.error (msgs k))
    (hfb : ∃ e, o.fb = Except.error e) :
    runItem cfg o cands =
      ⟨"", 0, "AI Error: " ++ msgs (cfg.maxAttempts - 1), false⟩ := by
  obtain ⟨e, hfb⟩ := hfb
  unfold runItem
  rw [h1]
  simp only [Bool.false_eq_true, if_false]
  change (if (!(St.init).validated && cfg.useAI) = true then
      finalize (fallbackStep o cands (aiLoop cfg o cfg.maxAttempts St.init))
    else finalize St.init) = _
  rw [aiLoop_allError cfg o msgs hall cfg.maxAttempts h3 St.init rfl]
  rw [fallbackStep_error o cands _ e hfb]
  simp [h2, finalize, St.init]

/-- `nodeAttempts` is the identity on an already-validated state. -/
theorem nodeAttempts_stable (et : String) (o : NodeOracles) (n : Nat) (st : NodeSt)
    (h : st.validated = true) : nodeAttempts et o n st = st := by
  cases n <;> simp [nodeAttempts, h]

/-- When every synthesis call fails, one chunk's retry loop only counts
attempts and accumulates the diagnostic. -/
theorem nodeAttempts_allError (et : String) (o : NodeOracles) (msgs : Nat → String)
    (hall : ∀ k, o.synth k = Except.error (msgs k)) :
    ∀ n, ∀ st : NodeSt, st.validated = false →
      nodeAttempts et o n st =
        { st with attempts := st.attempts + n,
                  reasoning := if n = 0 then st.reasoning
                    else "AI did not return valid JSON or failed: " ++
                      msgs (st.synthIdx + n - 1),
                  synthIdx := st.synthIdx + n } := by
  intro n
  induction n with
  | zero => intro st hst; simp [nodeAttempts]
  | succ n ih =>
    intro st hst
    unfold nodeAttempts
    rw [hst]
    simp only [Bool.false_eq_true, if_false, hall (st.synthIdx)]
    rw [ih _ rfl]
    rcases Nat.eq_zero_or_pos n with h0 | hpos
    · subst h0
      simp
    · have hne : ¬n = 0 := by omega
      have e1 : st.synthIdx + 1 + n - 1 = st.synthIdx + (n + 1) - 1 := by omega
      have e2 : st.synthIdx + 1 + n = st.synthIdx + (n + 1) := by omega
      have e3 : st.attempts + 1 + n = st.attempts + (n + 1) := by omega
      simp [hne, e1, e2, e3]

/-- When every synthesis call fails, the chunk loop over a non-empty chunk
list ends unvalidated with `attempts = maxAttempts` and an unchanged
selector and confidence. -/
theorem nodeChunks_allError (et : String) (o : NodeOracles) (maxA : Nat)
    (msgs : Nat → String) (hall : ∀ k, o.synth k = Except.error (msgs k)) :
    ∀ chunks : List String, chunks ≠ [] → ∀ st : NodeSt, st.validated = false →
      (nodeChunks et o maxA chunks st).validated = false ∧
      (nodeChunks et o maxA chunks st).attempts = maxA ∧
      (nodeChunks et o maxA chunks st).selector = st.selector ∧
      (nodeChunks et o maxA chunks st).confidence = st.confidence := by
  intro chunks
  induction chunks with
  | nil => intro h; exact absurd rfl h
  | cons c rest ih =>
    intro _ st hst
    unfold nodeChunks
    rw [nodeAttempts_allError et o msgs hall maxA _ (by exact hst)]
    simp only [hst]
    rcases rest with _ | ⟨c2, rest2⟩
    · simp [nodeChunks]
    · simpa using ih (by simp) _ rfl

/-- A non-empty body HTML produces at least one chunk. -/
theorem htmlChunks_ne_nil (html : String) (h : html ≠ "") : htmlChunks html ≠ [] := by
  rcases html with ⟨l⟩
  cases l with
  | nil => exact absurd rfl h
  | cons c r => simp [htmlChunks, chunkGo]

/-- `node.ts` exhaustion: with a non-empty body HTML, at least one allowed
attempt and every synthesis call failing, the returned result is
unvalidated with an empty selector and `attempts = maxAttempts`. -/
theorem runItemNode_allError (et : String) (maxA : Nat) (o : NodeOracles)
    (html : String) (msgs : Nat → String)
    (hh : html ≠ "") (hall : ∀ k, o.synth k = Except.error (msgs k)) :
    (runItemNode et maxA o html).validated = false ∧
    (runItemNode et maxA o html).attempts = maxA ∧
    (runItemNode et maxA o html).selector = "" := by
  have h := nodeChunks_allError et o maxA msgs hall (htmlChunks html)
    (htmlChunks_ne_nil html hh) NodeSt.init rfl
  exact ⟨h.1, h.2.1, h.2.2.1⟩

/-- `node.ts` validation sweep: preserves the typed-acceptance invariant —
a selector it accepts has a first match with a compatible tag/type. -/
theorem nodeValidate_NTyped (et : String) (o : NodeOracles) (sels : List String)
    (st : NodeSt) (h : NTyped et o st) : NTyped et o (nodeValidate et o sels st) := by
  induction sels generalizing st with
  | nil => exact h
  | cons sel rest ih =>
    unfold nodeValidate
    split
    · exact ih st h
    · split
      · exact ih st h
      · rename_i info heq
        split
        · rename_i ht
          intro _
          exact ⟨info, heq, ht⟩
        · exact ih st h

theorem nodeAttempts_NTyped (et : String) (o : NodeOracles) (n : Nat) (st : NodeSt)
    (h : NTyped et o st) : NTyped et o (nodeAttempts et o n st) := by
  induction n generalizing st with
  | zero => exact h
  | succ n ih =>
    unfold nodeAttempts
    split
    case isTrue => exact h
    case isFalse hnv =>
      split
      · exact ih _ (fun hv => h hv)
      · refine ih _ (nodeValidate_NTyped et o _ _ ?_)
        intro hv
        exact absurd hv hnv

theorem nodeChunks_NTyped (et : String) (o : NodeOracles) (maxA : Nat)
    (chunks : List String) (st : NodeSt) (h : NTyped et o st) :
    NTyped et o (nodeChunks et o maxA chunks st) := by
  induction chunks generalizing st with
  | nil => exact h
  | cons c rest ih =>
    unfold nodeChunks
    have h' : NTyped et o (nodeAttempts et o maxA { st with attempts := 0 }) :=
      nodeAttempts_NTyped et o maxA _ (fun hv => h hv)
    split
    · exact h'
    · exact ih _ h'

/-- `nodeValidate` keeps the validated-implies-nonempty-selector invariant. -/
theorem nodeValidate_selInv (et : String) (o : NodeOracles) (sels : List String)
    (st : NodeSt) (h : NSelInv st) : NSelInv (nodeValidate et o sels st) := by
  induction sels generalizing st with
  | nil => exact h
  | cons sel rest ih =>
    unfold nodeValidate
    split
    case isTrue => exact ih st h
    case isFalse hne =>
      split
      · exact ih st h
      · split
        · intro _
          exact hne
        · exact ih st h

theorem nodeAttempts_selInv (et : String) (o : NodeOracles) (n : Nat) (st : NodeSt)
    (h : NSelInv st) : NSelInv (nodeAttempts et o n st) := by
  induction n generalizing st with
  | zero => exact h
  | succ n ih =>
    unfold nodeAttempts
    split
    case isTrue => exact h
    case isFalse hnv =>
      split
      · exact ih _ (fun hv => h hv)
      · refine ih _ (nodeValidate_selInv et o _ _ ?_)
        intro hv
        exact absurd hv hnv

theorem nodeChunks_selInv (et : String) (o : NodeOracles) (maxA : Nat)
    (chunks : List String) (st : NodeSt) (h : NSelInv st) :
    NSelInv (nodeChunks et o maxA chunks st) := by
  induction chunks generalizing st with
  | nil => exact h
  | cons c rest ih =>
    unfold nodeChunks
    have h' : NSelInv (nodeAttempts et o maxA { st with attempts := 0 }) :=
      nodeAttempts_selInv et o maxA _ (fun hv => h hv)
    split
    · exact h'
    · exact ih _ h'

/-- The first heuristic hit: with all earlier candidates matching neither
class, a matching candidate whose selector has DOM count 1 and passes
semantic validation is accepted on the spot. -/
theorem heurLoop_hit (cfg : Config) (o : Oracles) (pre : List Candidate)
    (c : Candidate) (post : List Candidate) (st : St)
    (hpre : ∀ c' ∈ pre, isExactMatch cfg.description c' = false ∧
      isFuzzyMatch cfg.description c' = false)
    (hm : (isExactMatch cfg.description c || isFuzzyMatch cfg.description c) = true)
    (hc : o.domCount (constructRobustSelector c) = some 1)
    (hs : (runSemanticValidation cfg o st (constructRobustSelector c)).1 = true) :
    heurLoop cfg o (pre ++ c :: post) st =
      ({ (runSemanticValidation cfg o st (constructRobustSelector c)).2 with
          selector := constructRobustSelector c
          validated := true
          confidence := if isExactMatch cfg.description c then 98/100 else 85/100
          reasoning := heurMsg (isExactMatch cfg.description c)
            (constructRobustSelector c) }, none) := by
  induction pre with
  | nil =>
    simp only [List.nil_append]
    unfold heurLoop
    rw [hm, hc, hs]
    simp
  | cons a pre ih =>
    have ha := hpre a (List.mem_cons_self a pre)
    simp only [List.cons_append]
    unfold heurLoop
    rw [ha.1, ha.2]
    simpa using ih (fun c' hc' => hpre c' (List.mem_cons_of_mem a hc'))

/-- If `t.id` is non-empty, the constructed selector is `#id`. -/
theorem constructRobustSelector_id (t : Candidate) (h : t.id ≠ "") :
    constructRobustSelector t = "#" ++ t.id := by
  simp [constructRobustSelector, h]

/-- A candidate whose lowercased id equals the lowercased description is an
exact match. -/
theorem isExactMatch_of_id (d : String) (t : Candidate)
    (h : jsToLower t.id = jsToLower d) : isExactMatch d t = true := by
  simp only [isExactMatch, attsOf, List.any_eq_true]
  exact ⟨jsToLower t.id, by simp [List.mem_map], by simp [h]⟩

/-- A first-position heuristic hit fixes the whole item result, whatever
the synthesis and fallback oracles would have answered. -/
theorem runItem_heurHit (cfg : Config) (o : Oracles) (pre : List Candidate)
    (c : Candidate) (post : List Candidate)
    (hcfg : cfg.heuristicSearch = true)
    (hpre : ∀ c' ∈ pre, isExactMatch cfg.description c' = false ∧
      isFuzzyMatch cfg.description c' = false)
    (hm : (isExactMatch cfg.description c || isFuzzyMatch cfg.description c) = true)
    (hc : o.domCount (constructRobustSelector c) = some 1)
    (hs : (runSemanticValidation cfg o St.init (constructRobustSelector c)).1 = true) :
    runItem cfg o (pre ++ c :: post) =
      ⟨constructRobustSelector c,
        if isExactMatch cfg.description c then 98/100 else 85/100,
        heurMsg (isExactMatch cfg.description c) (constructRobustSelector c),
        true⟩ := by
  unfold runItem
  rw [hcfg]
  simp only [if_true]
  rw [heurLoop_hit cfg o pre c post St.init hpre hm hc hs]
  simp [finalize]

/-- C5 (counterexample): the constructed selector does not follow the
claimed priority order. For an anchor with `href = "/ab/cd"` (6 characters,
last path component `"cd"` of length 2) and an aria-label, the code still
emits an href-derived selector (`a[href="/ab/cd"]`) where the claimed order
requires the aria-label selector; and for a candidate whose only attribute
is 2-character text, the code falls through to the positional selector
where the claimed 2–49 range would use the contains-text selector. -/
theorem c5_counterexample :
    constructRobustSelector hrefCand = "a[href=\"/ab/cd\"]" ∧
    constructSelectorClaimed hrefCand = "[aria-label=\"menu\"]" ∧
    constructRobustSelector hrefCand ≠ constructSelectorClaimed hrefCand ∧
    constructRobustSelector shortTextCand = "p:nth-of-type(1)" ∧
    constructSelectorClaimed shortTextCand = "p:has-text(\"ok\")" := by
  decide

/-- C5 (amended): the selector construction follows exactly the priority
order id → name → href (whenever the href has more than 5 characters: a
`href*=` selector on the last path component — retried once past a single
trailing empty component — when that component is non-empty and longer than
3 characters, else a `href=` selector on the full href) → aria-label →
placeholder → title → alt → contains-text (text length 3–49) →
nth-of-type positional fallback, each rule taken first-applicable-first. -/
theorem c5_construct_priority_amended (t : Candidate) :
    constructRobustSelector t = constructSelectorAmended t := by
  simp [constructRobustSelector, constructSelectorAmended, selectorRules,
    firstApplicable]

/-- C6 (counterexample): the fuzzy match is not exactly conjunctive token
coverage: for the description `"ok"` no token survives the length-2 filter,
so the claimed vacuous coverage holds while the code requires at least one
token and reports no fuzzy match. -/
theorem c6_counterexample :
    isFuzzyMatch "ok" emptyCand = false ∧ fuzzyClaimed "ok" emptyCand = true := by
  decide

/-- C6 (amended): a candidate is a fuzzy match exactly when the lowercased
description has at least one token longer than 2 characters and every such
token is a substring of at least one of the candidate's lowercased
attribute values (id, name, placeholder, text, ariaLabel, href, title,
alt); and a first-in-order fuzzy (but not exact) match whose selector is
unique and passes semantic validation is selected with confidence 0.85. -/
theorem c6_fuzzy_conjunctive_amended :
    (∀ (description : String) (c : Candidate),
      isFuzzyMatch description c = true ↔
        (keywordsOf description ≠ [] ∧
          ∀ kw ∈ keywordsOf description, ∃ a ∈ attsOf c, strIncludes a kw = true)) ∧
    (∀ (cfg : Config) (o : Oracles) (pre : List Candidate) (c : Candidate)
        (post : List Candidate),
      cfg.heuristicSearch = true →
      (∀ c' ∈ pre, isExactMatch cfg.description c' = false ∧
        isFuzzyMatch cfg.description c' = false) →
      isFuzzyMatch cfg.description c = true →
      isExactMatch cfg.description c = false →
      o.domCount (constructRobustSelector c) = some 1 →
      (runSemanticValidation cfg o St.init (constructRobustSelector c)).1 = true →
      runItem cfg o (pre ++ c :: post) =
        ⟨constructRobustSelector c, 85/100,
          heurMsg false (constructRobustSelector c), true⟩) := by
  constructor
  · intro description c
    simp [isFuzzyMatch, List.isEmpty_iff, List.all_eq_true, List.any_eq_true]
  · intro cfg o pre c post hcfg hpre hf hex hdom hsem
    have h := runItem_heurHit cfg o pre c post hcfg hpre (by rw [hf]; simp) hdom hsem
    rw [h, hex]
    simp

/-- C6 (witness): the fuzzy-selection clause at a concrete run. -/
theorem c6_fuzzy_conjunctive_amended_witness :
    runItem cfgSaveSettings oAria [cFuzzy] =
      ⟨constructRobustSelector cFuzzy, 85/100,
        heurMsg false (constructRobustSelector cFuzzy), true⟩ :=
  c6_fuzzy_conjunctive_amended.2 cfgSaveSettings oAria [] cFuzzy [] rfl (by simp)
    (by decide) (by decide) (by decide) (by decide)


/-- Items are always answered with a structured result; a state reaching a
validated result carries a non-empty selector. -/
theorem runItem_selNe (cfg : Config) (o : Oracles) (cands : List Candidate) :
    (runItem cfg o cands).validated = true → (runItem cfg o cands).selector ≠ "" := by
  have h0 : SelInv St.init := fun hv => absurd hv (by simp [St.init])
  have hh : SelInv (if cfg.heuristicSearch then heurLoop cfg o cands St.init
      else (St.init, none)).1 := by
    split
    · exact heurLoop_selInv cfg o cands St.init h0
    · exact h0
  unfold runItem
  split
  · rename_i st1 m heq
    intro hv
    have : st1 = (if cfg.heuristicSearch then heurLoop cfg o cands St.init
        else (St.init, none)).1 := by rw [heq]
    rw [this] at hv ⊢
    exact hh hv
  · rename_i st1 heq
    have hst1 : st1 = (if cfg.heuristicSearch then heurLoop cfg o cands St.init
        else (St.init, none)).1 := by rw [heq]
    split
    · intro hv
      have hsel : SelInv (fallbackStep o cands (aiLoop cfg o cfg.maxAttempts st1)) :=
        fallbackStep_selInv o cands _ (aiLoop_selInv cfg o _ st1 (hst1 ▸ hh))
      exact hsel hv
    · intro hv
      rw [hst1] at hv ⊢
      exact hh hv


theorem runItemNode_selNe (et : String) (maxA : Nat) (o : NodeOracles) (html : String) :
    (runItemNode et maxA o html).validated = true →
      (runItemNode et maxA o html).selector ≠ "" := by
  have h := nodeChunks_selInv et o maxA (htmlChunks html) NodeSt.init
    (fun hv => absurd hv (by simp [NodeSt.init]))
  exact fun hv => h hv

theorem runItemNode_typed (et : String) (maxA : Nat) (o : NodeOracles) (html : String) :
    (runItemNode et maxA o html).validated = true →
      ∃ info, o.query ((runItemNode et maxA o html).selector) = some info ∧
        typeMatches et info = true := by
  have h := nodeChunks_NTyped et o maxA (htmlChunks html) NodeSt.init
    (fun hv => absurd hv (by simp [NodeSt.init]))
  exact fun hv => h hv

/-- C1 (counterexample): `validated = true` does not imply that the
selector, re-queried at validation time, matched exactly one element of the
right type.  With semantic validation disabled, the `part_004` AI path
accepts the first non-empty suggested selector without any DOM query at
all: here the DOM matches `#ghost` zero times, yet the result is
`validated = true` with selector `#ghost`. -/
theorem c1_counterexample :
    (runItem cfgNoHeur oGhost []).validated = true ∧
    (runItem cfgNoHeur oGhost []).selector = "#ghost" ∧
    oGhost.domCount "#ghost" = some 0 := by
  decide

/-- C1 (amended): (1) an empty selector is never validated, in both the
`part_004` orchestrator and the `node.ts` variant; (2) a heuristic-phase
acceptance did re-query the DOM and found exactly one match; (3) a
`node.ts` acceptance re-queried the selector and its first match satisfied
the requested tag/type constraint (existence, not uniqueness).  The
uniqueness-plus-type re-query of the original claim fails on the `part_004`
AI path (see the counterexample). -/
theorem c1_validation_invariant_amended :
    (∀ (cfg : Config) (o : Oracles) (cands : List Candidate),
      (runItem cfg o cands).selector = "" → (runItem cfg o cands).validated = false) ∧
    (∀ (cfg : Config) (o : Oracles) (cands : List Candidate),
      (heurLoop cfg o cands St.init).1.validated = true →
        o.domCount ((heurLoop cfg o cands St.init).1.selector) = some 1) ∧
    (∀ (et : String) (maxA : Nat) (o : NodeOracles) (html : String),
      (runItemNode et maxA o html).selector = "" →
        (runItemNode et maxA o html).validated = false) ∧
    (∀ (et : String) (maxA : Nat) (o : NodeOracles) (html : String),
      (runItemNode et maxA o html).validated = true →
        ∃ info, o.query ((runItemNode et maxA o html).selector) = some info ∧
          typeMatches et info = true) := by
  refine ⟨?_, ?_, ?_, ?_⟩
  · intro cfg o cands hsel
    by_contra hv
    simp only [Bool.not_eq_false] at hv
    exact runItem_selNe cfg o cands hv hsel
  · intro cfg o cands hv
    exact heurLoop_count cfg o cands St.init rfl hv
  · intro et maxA o html hsel
    by_contra hv
    simp only [Bool.not_eq_false] at hv
    exact runItemNode_selNe et maxA o html hv hsel
  · intro et maxA o html hv
    exact runItemNode_typed et maxA o html hv

/-- C1 (witness): the amended invariants evaluated at concrete runs. -/
theorem c1_validation_invariant_amended_witness :
    (runItem cfgNoHeur oZero []).validated = false ∧
    oSaveOk.domCount ((heurLoop cfgSave oSaveOk [cSave] St.init).1.selector) = some 1 ∧
    (runItemNode "button" 1 noErr "x").validated = false ∧
    (∃ info, noBtn.query ((runItemNode "button" 1 noBtn "x").selector) = some info ∧
      typeMatches "button" info = true) := by
  refine ⟨?_, ?_, ?_, ?_⟩
  · exact c1_validation_invariant_amended.1 cfgNoHeur oZero [] (by decide)
  · exact c1_validation_invariant_amended.2.1 cfgSave oSaveOk [cSave] (by decide)
  · exact c1_validation_invariant_amended.2.2.1 "button" 1 noErr "x" (by decide)
  · exact c1_validation_invariant_amended.2.2.2 "button" 1 noBtn "x" (by decide)

/-- C2 (counterexample): confidence is not clamped to `[0, 1]`.  A provider
response parsing to confidence 5 is passed through to the result
unchanged (and the suggestion is even accepted as validated, semantic
validation being disabled). -/
theorem c2_counterexample :
    (runItem cfgNoHeur oConf5 []).confidence = 5 ∧
    (runItem cfgNoHeur oConf5 []).validated = true ∧
    ¬((runItem cfgNoHeur oConf5 []).confidence ≤ 1) := by
  refine ⟨by decide, by decide, ?_⟩
  intro h
  rw [show (runItem cfgNoHeur oConf5 []).confidence = 5 from by decide] at h
  norm_num at h

/-- C2 (amended): the result confidence is never clamped; it is exactly one
of 0 (initial value and all failure paths), 0.85 or 0.98 (heuristic
match), or the verbatim confidence of some parsed provider suggestion.  In
particular it lies in `[0, 1]` only when the provider's value does. -/
theorem c2_confidence_amended (cfg : Config) (o : Oracles) (cands : List Candidate) :
    (runItem cfg o cands).confidence = 0 ∨
    (runItem cfg o cands).confidence = 85/100 ∨
    (runItem cfg o cands).confidence = 98/100 ∨
    ∃ k p, o.synth k = Except.ok p ∧ (runItem cfg o cands).confidence = p.confidence := by
  have hh : (if cfg.heuristicSearch then heurLoop cfg o cands St.init
      else (St.init, none)).1.confidence = 0 ∨
      (if cfg.heuristicSearch then heurLoop cfg o cands St.init
      else (St.init, none)).1.confidence = 85/100 ∨
      (if cfg.heuristicSearch then heurLoop cfg o cands St.init
      else (St.init, none)).1.confidence = 98/100 := by
    split
    · simpa [St.init] using heurLoop_conf cfg o cands St.init
    · exact Or.inl rfl
  unfold runItem
  split
  · rename_i st1 m heq
    have h1 : st1.confidence = 0 ∨ st1.confidence = 85/100 ∨ st1.confidence = 98/100 := by
      have hst1 : st1 = (if cfg.heuristicSearch then heurLoop cfg o cands St.init
          else (St.init, none)).1 := by rw [heq]
      rw [hst1]
      exact hh
    rcases h1 with h | h | h
    · exact Or.inl h
    · exact Or.inr (Or.inl h)
    · exact Or.inr (Or.inr (Or.inl h))
  · rename_i st1 heq
    have hst1 : st1 = (if cfg.heuristicSearch then heurLoop cfg o cands St.init
        else (St.init, none)).1 := by rw [heq]
    have h1 : st1.confidence = 0 ∨ st1.confidence = 85/100 ∨ st1.confidence = 98/100 := by
      rw [hst1]; exact hh
    split
    · have hf := fallbackStep_conf o cands (aiLoop cfg o cfg.maxAttempts st1)
      rcases aiLoop_conf cfg o cfg.maxAttempts st1 with ha | ⟨k, p, hk, ha⟩
      · have hc : (finalize (fallbackStep o cands
            (aiLoop cfg o cfg.maxAttempts st1))).confidence = st1.confidence := by
          show (fallbackStep o cands (aiLoop cfg o cfg.maxAttempts st1)).confidence = _
          rw [hf, ha]
        rw [hc]
        rcases h1 with h | h | h
        · exact Or.inl h
        · exact Or.inr (Or.inl h)
        · exact Or.inr (Or.inr (Or.inl h))
      · refine Or.inr (Or.inr (Or.inr ⟨k, p, hk, ?_⟩))
        show (fallbackStep o cands (aiLoop cfg o cfg.maxAttempts st1)).confidence = _
        rw [hf, ha]
    · rcases h1 with h | h | h
      · exact Or.inl h
      · exact Or.inr (Or.inl h)
      · exact Or.inr (Or.inr (Or.inl h))

/-- C3 (counterexample): on exhaustion the result's selector is *not*
necessarily the empty string — when a synthesis attempt parsed but its
selector failed validation, the last suggested selector is kept in the
result (`"#x"` here), with `validated = false`. -/
theorem c3_counterexample :
    (runItem cfgSemOn oSuggestX []).validated = false ∧
    (runItem cfgSemOn oSuggestX []).selector = "#x" ∧
    (runItem cfgSemOn oSuggestX []).selector ≠ "" := by
  decide

/-- C3 (amended): exhaustion is a normal return, never a throw.  In the
`part_004` orchestrator, when every synthesis attempt fails at the
call/parse level and the fallback call fails too, the result is exactly
`{selector := "", confidence := 0, reasoning := last diagnostic,
validated := false}` (the `part_004` result carries no `attempts` field at
all); in the `node.ts` variant, with a non-empty chunk source and every
synthesis call failing, the result reports `attempts = maxAttempts`,
`selector = ""` and `validated = false`. -/
theorem c3_exhaustion_amended :
    (∀ (cfg : Config) (o : Oracles) (cands : List Candidate) (msgs : Nat → String),
      cfg.heuristicSearch = false → cfg.useAI = true → 1 ≤ cfg.maxAttempts →
      (∀ k, o.synth k = Except.error (msgs k)) → (∃ e, o.fb = Except.error e) →
      runItem cfg o cands =
        ⟨"", 0, "AI Error: " ++ msgs (cfg.maxAttempts - 1), false⟩) ∧
    (∀ (et : String) (maxA : Nat) (o : NodeOracles) (html : String) (msgs : Nat → String),
      html ≠ "" → (∀ k, o.synth k = Except.error (msgs k)) →
      (runItemNode et maxA o html).validated = false ∧
      (runItemNode et maxA o html).attempts = maxA ∧
      (runItemNode et maxA o html).selector = "") :=
  ⟨fun cfg o cands msgs h1 h2 h3 hall hfb =>
      runItem_allError cfg o cands msgs h1 h2 h3 hall hfb,
    fun et maxA o html msgs hh hall =>
      runItemNode_allError et maxA o html msgs hh hall⟩

/-- C3 (witness): the amended exhaustion behaviour at concrete runs. -/
theorem c3_exhaustion_amended_witness :
    runItem cfgNoHeur oZero [] = ⟨"", 0, "AI Error: boom", false⟩ ∧
    ((runItemNode "button" 3 noErr "x").validated = false ∧
      (runItemNode "button" 3 noErr "x").attempts = 3 ∧
      (runItemNode "button" 3 noErr "x").selector = "") := by
  refine ⟨?_, ?_⟩
  · exact c3_exhaustion_amended.1 cfgNoHeur oZero [] (fun _ => "boom") rfl rfl
      (by decide) (fun k => rfl) ⟨"boom", rfl⟩
  · exact c3_exhaustion_amended.2 "button" 3 noErr "x" (fun _ => "boom")
      (by decide) (fun k => rfl)

/-- C4 (counterexample): a candidate whose id equals the lowercased
description is *not* necessarily selected with confidence 0.98.  First run:
the single such candidate's `#save` selector matches 0 elements in the
DOM, so nothing is selected at all.  Second run: an earlier candidate in
document order fuzzy-matches first and is selected with confidence 0.85
even though a later candidate's id equals the description exactly. -/
theorem c4_counterexample :
    cSave.id = jsToLower cfgSave.description ∧
    (runItem cfgSave oZero [cSave]).validated = false ∧
    (runItem cfgSave oZero [cSave]).confidence ≠ 98/100 ∧
    cExactId.id = jsToLower cfgSaveSettings.description ∧
    (runItem cfgSaveSettings oAria [cFuzzy, cExactId]).selector =
      "[aria-label=\"Save Settings Now\"]" ∧
    (runItem cfgSaveSettings oAria [cFuzzy, cExactId]).confidence = 85/100 := by
  refine ⟨by decide, by decide, ?_, by decide, by decide, rfl⟩
  rw [show (runItem cfgSave oZero [cSave]).confidence = 0 from rfl]
  norm_num

/-- C4 (amended): if heuristic search is enabled, no earlier candidate in
document order matches either class, the candidate's id (compared
lowercased, as the code does) equals the lowercased description and is
non-empty, its `#id` selector re-queries to exactly one element, and
semantic validation passes (e.g. is disabled), then the result is that
candidate's `#id` selector with confidence 0.98 and `validated = true` —
and, because the synthesis and fallback oracles are universally
quantified while the result is fixed, no AI synthesis call can have
influenced it. -/
theorem c4_heuristic_id_amended (dom : String → Option Nat) (sem : Nat → Option Bool)
    (synth : Nat → Except String Parsed) (fb : Except String FallbackParsed)
    (cfg : Config) (pre : List Candidate) (c : Candidate) (post : List Candidate)
    (hcfg : cfg.heuristicSearch = true)
    (hpre : ∀ c' ∈ pre, isExactMatch cfg.description c' = false ∧
      isFuzzyMatch cfg.description c' = false)
    (hid : jsToLower c.id = jsToLower cfg.description) (hne : c.id ≠ "")
    (hdom : dom ("#" ++ c.id) = some 1)
    (hsem : (runSemanticValidation cfg ⟨dom, sem, synth, fb⟩ St.init
      ("#" ++ c.id)).1 = true) :
    runItem cfg ⟨dom, sem, synth, fb⟩ (pre ++ c :: post) =
      ⟨"#" ++ c.id, 98/100, heurMsg true ("#" ++ c.id), true⟩ := by
  have hex : isExactMatch cfg.description c = true := isExactMatch_of_id _ _ hid
  have hcs : constructRobustSelector c = "#" ++ c.id := constructRobustSelector_id c hne
  have h := runItem_heurHit cfg ⟨dom, sem, synth, fb⟩ pre c post hcfg hpre
    (by rw [hex]; simp) (by rw [hcs]; exact hdom) (by rw [hcs]; exact hsem)
  rw [h, hcs, hex]
  simp

/-- C4 (witness): the amended heuristic-id selection at a concrete run. -/
theorem c4_heuristic_id_amended_witness :
    runItem cfgSave oSaveOk [cSave] = ⟨"#save", 98/100, heurMsg true "#save", true⟩ :=
  c4_heuristic_id_amended oSaveOk.domCount oSaveOk.sem oSaveOk.synth oSaveOk.fb
    cfgSave [] cSave [] rfl (by simp) (by decide) (by decide) (by decide) (by decide)

/-- C9: in the Semantic Validator (`runSemanticValidation`, with semantic
validation enabled), an existing element whose corroboration call throws is
passed through as a success (`matches = true`), while a selector matching
no element (or rejected by the CSS engine) yields `false`. -/
theorem c9_semantic_validator_passthrough (cfg : Config) (o : Oracles) (st : St)
    (sel : String) (n : Nat) (he : cfg.semanticValidation = true) :
    (o.domCount sel = some (n + 1) → o.sem st.semIdx = none →
      (runSemanticValidation cfg o st sel).1 = true) ∧
    ((o.domCount sel = some 0 ∨ o.domCount sel = none) →
      (runSemanticValidation cfg o st sel).1 = false) := by
  constructor
  · intro hd hs
    unfold runSemanticValidation
    rw [he]
    simp [hd, hs]
  · intro hd
    unfold runSemanticValidation
    rw [he]
    rcases hd with hd | hd <;> simp [hd]

/-- C9 (witness): pass-through success on a throwing provider with an
existing element, and failure on a missing element. -/
theorem c9_semantic_validator_passthrough_witness :
    (runSemanticValidation cfgSemOn oSemUp St.init "#a").1 = true ∧
    (runSemanticValidation cfgSemOn oZero St.init "#a").1 = false := by
  constructor
  · exact (c9_semantic_validator_passthrough cfgSemOn oSemUp St.init "#a" 1 rfl).1
      rfl rfl
  · exact (c9_semantic_validator_passthrough cfgSemOn oZero St.init "#a" 0 rfl).2
      (Or.inl rfl)


/-- C7: after `sortSuggestions`, every validated suggestion precedes every
unvalidated one regardless of confidence, and within a group of equal
validation status confidence is non-increasing. -/
theorem c7_ranking (l : List Suggestion)
    (i j : Fin (sortSuggestions l).length) (hij : i < j) :
    (((sortSuggestions l).get j).validated = true →
      ((sortSuggestions l).get i).validated = true) ∧
    (((sortSuggestions l).get i).validated = ((sortSuggestions l).get j).validated →
      ((sortSuggestions l).get j).confidence ≤ ((sortSuggestions l).get i).confidence) := by
  have hs : (sortSuggestions l).Sorted sortLe := List.sorted_insertionSort sortLe l
  have hr : sortLe ((sortSuggestions l).get i) ((sortSuggestions l).get j) :=
    hs.rel_get_of_lt hij
  unfold sortLe sortCmp at hr
  constructor
  · intro hbv
    by_contra hav
    simp only [Bool.not_eq_true] at hav
    rw [hav, hbv] at hr
    simp at hr
    linarith
  · intro heq
    rw [heq] at hr
    cases hbv : ((sortSuggestions l).get j).validated <;> rw [hbv] at hr <;>
      simp at hr <;> simpa using hr

/-- C7 (witness): the ranking guarantees instantiated on a two-element
list holding a validated low-confidence and an unvalidated high-confidence
suggestion. -/
theorem c7_ranking_witness :
    (((sortSuggestions [sugLow, sugHigh]).get
        ⟨1, by rw [sortSuggestions, (List.perm_insertionSort sortLe _).length_eq]; decide⟩).validated = true →
      ((sortSuggestions [sugLow, sugHigh]).get
        ⟨0, by rw [sortSuggestions, (List.perm_insertionSort sortLe _).length_eq]; decide⟩).validated = true) ∧
    (((sortSuggestions [sugLow, sugHigh]).get
        ⟨0, by rw [sortSuggestions, (List.perm_insertionSort sortLe _).length_eq]; decide⟩).validated =
      ((sortSuggestions [sugLow, sugHigh]).get
        ⟨1, by rw [sortSuggestions, (List.perm_insertionSort sortLe _).length_eq]; decide⟩).validated →
      ((sortSuggestions [sugLow, sugHigh]).get
        ⟨1, by rw [sortSuggestions, (List.perm_insertionSort sortLe _).length_eq]; decide⟩).confidence ≤
      ((sortSuggestions [sugLow, sugHigh]).get
        ⟨0, by rw [sortSuggestions, (List.perm_insertionSort sortLe _).length_eq]; decide⟩).confidence) :=
  c7_ranking [sugLow, sugHigh] _ _ (by decide)

/-- C10: `safeJsonParse` is total — it returns the parsed value whenever
`JSON.parse` (the `parse` parameter) succeeds, and the supplied fallback on
every other input; no exception escapes (the embedding is a total
function). -/
theorem c10_safeJsonParse_total {α : Type} (parse : String → Option α)
    (raw : String) (fallback : α) :
    (∀ v, parse raw = some v → safeJsonParse parse raw fallback = v) ∧
    (parse raw = none → safeJsonParse parse raw fallback = fallback) := by
  constructor
  · intro v hv
    simp [safeJsonParse, hv]
  · intro hv
    simp [safeJsonParse, hv]

/-- C10 (witness): parsed value on well-formed input, fallback on a
malformed one. -/
theorem c10_safeJsonParse_total_witness :
    safeJsonParse jparse0 "42" 0 = 42 ∧ safeJsonParse jparse0 "nonsense" 7 = 7 :=
  ⟨(c10_safeJsonParse_total jparse0 "42" 0).1 42 (by decide),
    (c10_safeJsonParse_total jparse0 "nonsense" 7).2 (by decide)⟩


/-!
### Fence-stripping lemmas (C8)
-/

theorem rdrop_rtake (p : Char → Bool) (l : List Char) :
    l.rdropWhile p ++ l.rtakeWhile p = l := by
  rw [List.rdropWhile, List.rtakeWhile, ← List.reverse_append, ← List.reverse_reverse l]
  rw [List.takeWhile_append_dropWhile]
  simp

theorem glob_nil : glob [] = [] := by rw [glob]

theorem glob_cons (c : Char) (l : List Char) :
    glob (c :: l) = if c = bt ∧ l.take 2 = [bt, bt] then glob (afterTicks (l.drop 2))
      else c :: glob l := by
  rw [glob]

/-- For a block ending in a non-pattern character, a fixed-length prefix
comparison ignores anything appended after the block. -/
theorem take_append_pat (x m pat : List Char) (c : Char) (hx : x.getLast? = some c)
    (hpat : c ∉ pat) : ((x ++ m).take pat.length = pat ↔ x.take pat.length = pat) := by
  have hxne : x ≠ [] := by
    intro h
    rw [h] at hx
    simp at hx
  have hcx : c ∈ x := List.mem_of_mem_getLast? hx
  rcases le_or_lt pat.length x.length with hle | hlt
  · rw [List.take_append_of_le_length hle]
  · constructor
    · intro h
      exfalso
      apply hpat
      have hpref : x <+: (x ++ m).take pat.length := by
        rw [List.take_append_eq_append_take, List.take_of_length_le (le_of_lt hlt)]
        exact ⟨m.take (pat.length - x.length), rfl⟩
      rw [h] at hpref
      exact hpref.subset hcx
    · intro h
      exfalso
      apply hpat
      have : x.take pat.length = x := List.take_of_length_le (le_of_lt hlt)
      rw [this] at h
      rw [h] at hcx
      exact hcx

theorem jsonSkip_append (x m : List Char) (hx : x.getLast? = some cbr) :
    jsonSkip (x ++ m) = jsonSkip x := by
  have h5 : ((x ++ m).take 5 = ['j', 's', 'o', 'n', '\n']) ↔
      (x.take 5 = ['j', 's', 'o', 'n', '\n']) := by
    simpa using take_append_pat x m ['j', 's', 'o', 'n', '\n'] cbr hx (by decide)
  have h4 : ((x ++ m).take 4 = ['j', 's', 'o', 'n']) ↔ (x.take 4 = ['j', 's', 'o', 'n']) := by
    simpa using take_append_pat x m ['j', 's', 'o', 'n'] cbr hx (by decide)
  have h1 : ((x ++ m).take 1 = ['\n']) ↔ (x.take 1 = ['\n']) := by
    simpa using take_append_pat x m ['\n'] cbr hx (by decide)
  unfold jsonSkip
  simp only [h5, h4, h1]

theorem jsonSkip_lt (x : List Char) (hx : x.getLast? = some cbr) :
    jsonSkip x < x.length := by
  have hxne : x ≠ [] := by
    intro h
    rw [h] at hx
    simp at hx
  have hpos : 0 < x.length := List.length_pos.mpr hxne
  unfold jsonSkip
  split
  · rename_i h5
    have hlen : 5 ≤ x.length := by
      have := congrArg List.length h5
      simp at this
      omega
    rcases lt_or_eq_of_le hlen with h | h
    · omega
    · exfalso
      have : x.take 5 = x := List.take_of_length_le (by omega)
      rw [this] at h5
      rw [h5] at hx
      simp at hx
      exact absurd hx (by decide)
  · split
    · rename_i h4
      have hlen : 4 ≤ x.length := by
        have := congrArg List.length h4
        simp at this
        omega
      rcases lt_or_eq_of_le hlen with h | h
      · omega
      · exfalso
        have : x.take 4 = x := List.take_of_length_le (by omega)
        rw [this] at h4
        rw [h4] at hx
        simp at hx
        exact absurd hx (by decide)
    · split
      · rename_i h1
        have hlen : 1 ≤ x.length := by
          have := congrArg List.length h1
          simp at this
          omega
        rcases lt_or_eq_of_le hlen with h | h
        · omega
        · exfalso
          have : x.take 1 = x := List.take_of_length_le (by omega)
          rw [this] at h1
          rw [h1] at hx
          simp at hx
          exact absurd hx (by decide)
      · omega

theorem afterTicks_append (r m : List Char) (hr : r.getLast? = some cbr) :
    afterTicks (r ++ m) = afterTicks r ++ m := by
  unfold afterTicks
  rw [jsonSkip_append r m hr,
    List.drop_append_of_le_length (le_of_lt (jsonSkip_lt r hr))]

theorem afterTicks_getLast (r : List Char) (hr : r.getLast? = some cbr) :
    (afterTicks r).getLast? = some cbr := by
  have hlt := jsonSkip_lt r hr
  have hne : r.drop (jsonSkip r) ≠ [] := by
    intro h0
    have := congrArg List.length h0
    simp at this
    omega
  unfold afterTicks
  calc (r.drop (jsonSkip r)).getLast?
      = (r.take (jsonSkip r) ++ r.drop (jsonSkip r)).getLast? :=
        (List.getLast?_append_of_ne_nil _ hne).symm
    _ = r.getLast? := by rw [List.take_append_drop]
    _ = some cbr := hr

/-- Scanning distributes over an append whose left block ends in `\x7d`:
no fence match can straddle the boundary. -/
theorem glob_append (k m : List Char) (hk : k.getLast? = some cbr) :
    glob (k ++ m) = glob k ++ glob m := by
  match k with
  | [] => simp at hk
  | c :: ktail =>
    have hcond : (c = bt ∧ (ktail ++ m).take 2 = [bt, bt]) ↔
        (c = bt ∧ ktail.take 2 = [bt, bt]) := by
      cases ktail with
      | nil =>
        have hc : c = cbr := by simpa using hk
        subst hc
        constructor <;> rintro ⟨h1, -⟩ <;> exact absurd h1 (by decide)
      | cons d dt =>
        cases dt with
        | nil =>
          have hd : d = cbr := by simpa using hk
          subst hd
          constructor
          · rintro ⟨h1, h2⟩
            exfalso
            cases m with
            | nil => simp at h2
            | cons e et =>
              simp [List.take] at h2
              exact absurd h2.1 (by decide)
          · rintro ⟨h1, h2⟩
            simp [List.take] at h2
        | cons e et =>
          simp [List.take]
    rw [List.cons_append, glob_cons, glob_cons]
    by_cases hc : c = bt ∧ ktail.take 2 = [bt, bt]
    · rw [if_pos (hcond.mpr hc), if_pos hc]
      obtain ⟨hcb, ht⟩ := hc
      match ktail, ht with
      | d :: e :: r, ht =>
        have hd : d = bt ∧ e = bt := by simpa [List.take] using ht
        obtain ⟨hd, he⟩ := hd
        subst hd he
        have hr : r.getLast? = some cbr := by
          cases r with
          | nil =>
            exfalso
            simp at hk
            exact absurd hk (by decide)
          | cons f ft => simpa using hk
        have hdrop : ((bt :: bt :: r) ++ m).drop 2 = r ++ m := by simp
        have hdrop2 : (bt :: bt :: r).drop 2 = r := by simp
        rw [hdrop, hdrop2, afterTicks_append r m hr,
          glob_append (afterTicks r) m (afterTicks_getLast r hr)]
    · rw [if_neg (fun h => hc (hcond.mp h)), if_neg hc]
      by_cases hkt : ktail = []
      · subst hkt
        simp [glob_nil]
      · have hlast : ktail.getLast? = some cbr := by
          calc ktail.getLast? = ([c] ++ ktail).getLast? :=
                (List.getLast?_append_of_ne_nil _ hkt).symm
            _ = some cbr := hk
        rw [glob_append ktail m hlast]
        simp
termination_by k.length
decreasing_by
  all_goals simp [afterTicks, List.length_drop]
  all_goals omega

theorem glob_ws (w : List Char) (hw : ∀ c ∈ w, jsWs c = true) : glob w = w := by
  induction w with
  | nil => exact glob_nil
  | cons c w ih =>
    have hc : c ≠ bt := by
      intro h
      have := hw c (List.mem_cons_self c w)
      rw [h] at this
      exact absurd this (by decide)
    rw [glob_cons, if_neg (fun h => hc h.1),
      ih (fun c' hc' => hw c' (List.mem_cons_of_mem _ hc'))]

theorem glob_ticks3 : glob [bt, bt, bt] = [] := by
  rw [glob_cons, if_pos ⟨rfl, by simp [List.take]⟩]
  simp [afterTicks, jsonSkip, glob_nil]

theorem glob_fence_tail (w : List Char) (hw : ∀ c ∈ w, jsWs c = true) :
    glob (w ++ '\n' :: [bt, bt, bt]) = w ++ ['\n'] := by
  induction w with
  | nil =>
    rw [List.nil_append, glob_cons, if_neg (by rintro ⟨h, -⟩; exact absurd h (by decide))]
    rw [glob_ticks3]
    simp
  | cons c w ih =>
    have hc : c ≠ bt := by
      intro h
      have := hw c (List.mem_cons_self c w)
      rw [h] at this
      exact absurd this (by decide)
    rw [List.cons_append, glob_cons, if_neg (fun h => hc h.1),
      ih (fun c' hc' => hw c' (List.mem_cons_of_mem _ hc'))]
    rfl

theorem glob_getLast (k : List Char) (hk : k.getLast? = some cbr) :
    (glob k).getLast? = some cbr := by
  match k with
  | [] => simp at hk
  | c :: ktail =>
    rw [glob_cons]
    by_cases hc : c = bt ∧ ktail.take 2 = [bt, bt]
    · rw [if_pos hc]
      obtain ⟨hcb, ht⟩ := hc
      match ktail, ht with
      | d :: e :: r, ht =>
        have hd : d = bt ∧ e = bt := by simpa [List.take] using ht
        obtain ⟨hd, he⟩ := hd
        subst hd he
        have hr : r.getLast? = some cbr := by
          cases r with
          | nil =>
            exfalso
            simp at hk
            exact absurd hk (by decide)
          | cons f ft => simpa using hk
        have hdrop2 : (bt :: bt :: r).drop 2 = r := by simp
        rw [hdrop2]
        exact glob_getLast (afterTicks r) (afterTicks_getLast r hr)
    · rw [if_neg hc]
      by_cases hkt : ktail = []
      · subst hkt
        have : c = cbr := by simpa using hk
        subst this
        rw [glob_nil]
        rfl
      · have hlast : ktail.getLast? = some cbr := by
          calc ktail.getLast? = ([c] ++ ktail).getLast? :=
                (List.getLast?_append_of_ne_nil _ hkt).symm
            _ = some cbr := hk
        have hres := glob_getLast ktail hlast
        have hne : glob ktail ≠ [] := by
          intro h0
          rw [h0] at hres
          simp at hres
        calc (c :: glob ktail).getLast?
            = ([c] ++ glob ktail).getLast? := rfl
          _ = (glob ktail).getLast? := List.getLast?_append_of_ne_nil _ hne
          _ = some cbr := hres
termination_by k.length
decreasing_by
  all_goals simp [afterTicks, List.length_drop]
  all_goals omega

theorem stripEndTicks_noop (l : List Char) (c : Char) (h : l.getLast? = some c)
    (hc : c ≠ bt) : stripEndTicks l = l := by
  unfold stripEndTicks
  rw [if_neg]
  rintro ⟨t, ht⟩
  rw [← ht] at h
  rw [show t ++ [bt, bt, bt] = (t ++ [bt, bt]) ++ [bt] from by simp] at h
  rw [List.getLast?_concat] at h
  simp at h
  exact hc h.symm

theorem rdropWhile_append_ws (p : Char → Bool) (y w : List Char)
    (hw : ∀ c ∈ w, p c = true) : (y ++ w).rdropWhile p = y.rdropWhile p := by
  induction w generalizing y with
  | nil => simp
  | cons c w ih =>
    rw [show y ++ c :: w = (y ++ [c]) ++ w from by simp,
      ih (y ++ [c]) (fun d hd => hw d (List.mem_cons_of_mem _ hd)),
      List.rdropWhile_concat_pos p y c (hw c (List.mem_cons_self c w))]

theorem dropWhile_all_true (p : Char → Bool) (l : List Char)
    (h : ∀ c ∈ l, p c = true) : l.dropWhile p = [] := by
  induction l with
  | nil => rfl
  | cons c t ih =>
    rw [List.dropWhile_cons_of_pos (h c (List.mem_cons_self c t))]
    exact ih (fun d hd => h d (List.mem_cons_of_mem _ hd))

theorem jsTrim_append_ws (x w : List Char) (hw : ∀ c ∈ w, jsWs c = true) :
    jsTrim (x ++ w) = jsTrim x := by
  unfold jsTrim
  rw [List.dropWhile_append]
  by_cases hx : (x.dropWhile jsWs).isEmpty
  · rw [if_pos hx, dropWhile_all_true jsWs w hw]
    have hx0 : x.dropWhile jsWs = [] := by simpa using hx
    rw [hx0]
  · rw [if_neg hx]
    exact rdropWhile_append_ws jsWs _ w hw

theorem glob_fence_head (X : List Char) :
    glob ([bt, bt, bt, 'j', 's', 'o', 'n', '\n'] ++ X) = glob X := by
  rw [show [bt, bt, bt, 'j', 's', 'o', 'n', '\n'] ++ X
      = bt :: (bt :: bt :: 'j' :: 's' :: 'o' :: 'n' :: '\n' :: X) from rfl]
  rw [glob_cons, if_pos ⟨rfl, rfl⟩]
  have hskip : jsonSkip ('j' :: 's' :: 'o' :: 'n' :: '\n' :: X) = 5 := by
    unfold jsonSkip
    exact if_pos rfl
  have hat : afterTicks ('j' :: 's' :: 'o' :: 'n' :: '\n' :: X) = X := by
    unfold afterTicks
    rw [hskip]
    rfl
  rw [show (bt :: bt :: 'j' :: 's' :: 'o' :: 'n' :: '\n' :: X).drop 2
      = 'j' :: 's' :: 'o' :: 'n' :: '\n' :: X from rfl, hat]

theorem cleanList_fence (k w : List Char) (hk : k.getLast? = some cbr)
    (hw : ∀ c ∈ w, jsWs c = true) :
    jsTrim (stripEndTicks (glob ((k ++ w) ++ ('\n' :: [bt, bt, bt]))))
      = jsTrim (stripEndTicks (glob (k ++ w))) := by
  rw [List.append_assoc, glob_append k (w ++ '\n' :: [bt, bt, bt]) hk,
    glob_fence_tail w hw]
  rw [glob_append k w hk, glob_ws w hw]
  have hgk : (glob k).getLast? = some cbr := glob_getLast k hk
  have hL : (glob k ++ (w ++ ['\n'])).getLast? = some '\n' := by
    rw [List.getLast?_append_of_ne_nil _ (by simp : w ++ ['\n'] ≠ [])]
    exact List.getLast?_concat w
  have hR : ∃ c2, (glob k ++ w).getLast? = some c2 ∧ c2 ≠ bt := by
    cases w with
    | nil => exact ⟨cbr, by simpa using hgk, by decide⟩
    | cons a w' =>
      have hne : a :: w' ≠ [] := by simp
      obtain ⟨c2, hc2⟩ := Option.isSome_iff_exists.mp (List.getLast?_isSome.mpr hne)
      refine ⟨c2, ?_, ?_⟩
      · rw [List.getLast?_append_of_ne_nil _ hne, hc2]
      · have hmem : c2 ∈ a :: w' := List.mem_of_mem_getLast? hc2
        intro hbt
        have := hw c2 hmem
        rw [hbt] at this
        exact absurd this (by decide)
  obtain ⟨c2, hc2, hc2ne⟩ := hR
  rw [stripEndTicks_noop _ '\n' hL (by decide), stripEndTicks_noop _ c2 hc2 hc2ne]
  have hwn : ∀ c ∈ w ++ ['\n'], jsWs c = true := by
    intro c hc
    rcases List.mem_append.mp hc with h | h
    · exact hw c h
    · simp at h
      rw [h]
      decide
  rw [jsTrim_append_ws (glob k) (w ++ ['\n']) hwn, jsTrim_append_ws (glob k) w hw]

theorem fenceWrap_data (j : String) :
    (fenceWrap j).data
      = [bt, bt, bt, 'j', 's', 'o', 'n', '\n'] ++ (j.data ++ '\n' :: [bt, bt, bt]) := by
  have e1 : ("```json\n" : String).data = [bt, bt, bt, 'j', 's', 'o', 'n', '\n'] := by
    decide
  have e2 : ("\n```" : String).data = '\n' :: [bt, bt, bt] := by decide
  have e0 : (fenceWrap j).data
      = ("```json\n" : String).data ++ j.data ++ ("\n```" : String).data := rfl
  rw [e0, e1, e2, List.append_assoc]

theorem cleanFences_fence (j : String) (hj : jsonishEnd j) :
    cleanFences (fenceWrap j) = cleanFences j := by
  have hwws : ∀ c ∈ j.data.rtakeWhile jsWs, jsWs c = true :=
    fun c hc => List.mem_rtakeWhile_imp hc
  unfold cleanFences
  rw [fenceWrap_data j, glob_fence_head]
  rw [← rdrop_rtake jsWs j.data]
  exact congrArg String.mk (cleanList_fence _ _ hj hwws)

theorem firstIdx_none (p : Char → Bool) (l : List Char) (h : ∀ c ∈ l, p c = false) :
    firstIdx p l = none := by
  induction l with
  | nil => rfl
  | cons c r ih =>
    unfold firstIdx
    rw [if_neg (by simp [h c (List.mem_cons_self c r)]),
      ih (fun d hd => h d (List.mem_cons_of_mem _ hd))]
    rfl

theorem firstIdx_append_none (p : Char → Bool) (x s : List Char)
    (hs : ∀ c ∈ s, p c = false) : firstIdx p (x ++ s) = firstIdx p x := by
  induction x with
  | nil => simpa using firstIdx_none p s hs
  | cons c r ih =>
    simp only [List.cons_append, firstIdx, List.append_eq]
    rw [ih]

theorem firstIdx_cons_append (p : Char → Bool) (a l : List Char)
    (ha : ∀ c ∈ a, p c = false) :
    firstIdx p (a ++ l) = (firstIdx p l).map (· + a.length) := by
  induction a with
  | nil =>
    simp only [List.nil_append, List.length_nil]
    cases firstIdx p l <;> simp
  | cons c r ih =>
    simp only [List.cons_append, firstIdx, List.length_cons, List.append_eq]
    rw [if_neg (by simp [ha c (List.mem_cons_self c r)]),
      ih (fun d hd => ha d (List.mem_cons_of_mem _ hd))]
    cases firstIdx p l with
    | none => rfl
    | some k =>
      simp
      omega

theorem firstIdx_lt (p : Char → Bool) (l : List Char) (k : Nat)
    (h : firstIdx p l = some k) : k < l.length := by
  induction l generalizing k with
  | nil => simp [firstIdx] at h
  | cons c r ih =>
    unfold firstIdx at h
    by_cases hp : p c
    · rw [if_pos hp] at h
      injection h with h
      simp [← h]
    · rw [if_neg hp] at h
      cases hfr : firstIdx p r with
      | none =>
        rw [hfr] at h
        simp at h
      | some m =>
        rw [hfr] at h
        simp at h
        have := ih m hfr
        simp
        omega

theorem firstIdx_wrap (p : Char → Bool) (a x s : List Char)
    (ha : ∀ c ∈ a, p c = false) (hs : ∀ c ∈ s, p c = false) :
    firstIdx p (a ++ x ++ s) = (firstIdx p x).map (· + a.length) := by
  rw [List.append_assoc, firstIdx_cons_append p a (x ++ s) ha,
    firstIdx_append_none p x s hs]

theorem lastIdx_wrap (p : Char → Bool) (a x s : List Char)
    (ha : ∀ c ∈ a, p c = false) (hs : ∀ c ∈ s, p c = false) :
    lastIdx p (a ++ x ++ s) = (lastIdx p x).map (· + a.length) := by
  unfold lastIdx
  rw [show (a ++ x ++ s).reverse = s.reverse ++ x.reverse ++ a.reverse from by simp]
  rw [firstIdx_wrap p s.reverse x.reverse a.reverse
    (fun c hc => hs c (List.mem_reverse.mp hc))
    (fun c hc => ha c (List.mem_reverse.mp hc))]
  cases hfi : firstIdx p x.reverse with
  | none => simp
  | some k =>
    have hk : k < x.length := by simpa using firstIdx_lt p x.reverse k hfi
    simp
    omega

theorem lastIdx_le (p : Char → Bool) (l : List Char) (e : Nat)
    (h : lastIdx p l = some e) : e + 1 ≤ l.length := by
  unfold lastIdx at h
  cases hf : firstIdx p l.reverse with
  | none =>
    rw [hf] at h
    simp at h
  | some k =>
    rw [hf] at h
    simp at h
    have hk : k < l.length := by simpa using firstIdx_lt p l.reverse k hf
    omega

theorem braceRegex_wrap (a x s : List Char)
    (ha : ∀ c ∈ a, c ≠ obr ∧ c ≠ cbr) (hs : ∀ c ∈ s, c ≠ obr ∧ c ≠ cbr) :
    braceRegex (a ++ x ++ s) = braceRegex x := by
  unfold braceRegex
  rw [firstIdx_wrap _ a x s (fun c hc => by simp [(ha c hc).1])
    (fun c hc => by simp [(hs c hc).1])]
  rw [lastIdx_wrap _ a x s (fun c hc => by simp [(ha c hc).2])
    (fun c hc => by simp [(hs c hc).2])]
  cases hof : firstIdx (fun c => decide (c = obr)) x with
  | none => rfl
  | some s0 =>
    cases hol : lastIdx (fun c => decide (c = cbr)) x with
    | none => rfl
    | some e0 =>
      have hs0 : s0 < x.length := firstIdx_lt _ x s0 hof
      have he0 : e0 + 1 ≤ x.length := lastIdx_le _ x e0 hol
      show (if s0 + a.length < e0 + a.length
          then some (((a ++ x ++ s).drop (s0 + a.length)).take
            (e0 + a.length + 1 - (s0 + a.length)))
          else none)
        = (if s0 < e0 then some ((x.drop s0).take (e0 + 1 - s0)) else none)
      by_cases hlt : s0 < e0
      · rw [if_pos (by omega : s0 + a.length < e0 + a.length), if_pos hlt]
        congr 1
        rw [show e0 + a.length + 1 - (s0 + a.length) = e0 + 1 - s0 from by omega]
        rw [List.append_assoc, show s0 + a.length = a.length + s0 from by omega,
          List.drop_append s0, List.drop_append_of_le_length (le_of_lt hs0),
          List.take_append_of_le_length (by simp; omega)]
      · rw [if_neg (by omega : ¬ s0 + a.length < e0 + a.length), if_neg hlt]

theorem parseAiJson4Fb_fence {α : Type} (parse : String → Option α) (j : String) :
    parseAiJson4Fb parse (fenceWrap j) = parseAiJson4Fb parse j := by
  unfold parseAiJson4Fb
  rw [fenceWrap_data j, ← List.append_assoc,
    braceRegex_wrap _ j.data _ (by decide) (by decide)]

/-- C8: for every payload `j` that ends, after trailing whitespace, in the
closing brace of a JSON object (the shape every string that `JSON.parse`
accepts as an object has), both AI-response parsers — the simple
`parseAiJson` of `FindElementByDescription.node.ts` and the multi-stage
`parseAiJson` of `part_004` — return on the fence-wrapped input
(three backticks plus `json`, newline, `j`, newline, three backticks)
exactly the value they return on the unwrapped `j`, for every underlying
`JSON.parse` oracle. -/
theorem c8_fence_wrap_parse_equiv {α : Type} (parse : String → Option α) (j : String)
    (hj : jsonishEnd j) :
    parseAiJson parse (fenceWrap j) = parseAiJson parse j ∧
    parseAiJson4 parse (fenceWrap j) = parseAiJson4 parse j := by
  have hc : cleanFences (fenceWrap j) = cleanFences j := cleanFences_fence j hj
  have hfb : parseAiJson4Fb parse (fenceWrap j) = parseAiJson4Fb parse j :=
    parseAiJson4Fb_fence parse j
  constructor
  · unfold parseAiJson
    rw [hc]
  · unfold parseAiJson4
    rw [hc, hfb]

/-- Witness for C8 at the concrete payload `"\x7b\x7d"` (the empty JSON
object) and the concrete parse oracle `jparse1`. -/
theorem c8_fence_wrap_parse_equiv_witness :
    parseAiJson jparse1 (fenceWrap (String.mk [obr, cbr]))
        = parseAiJson jparse1 (String.mk [obr, cbr]) ∧
    parseAiJson4 jparse1 (fenceWrap (String.mk [obr, cbr]))
        = parseAiJson4 jparse1 (String.mk [obr, cbr]) :=
  c8_fence_wrap_parse_equiv jparse1 (String.mk [obr, cbr])
    (show (((String.mk [obr, cbr]).data.rdropWhile jsWs).getLast? = some cbr) by decide)

end Rpa
